import Mathlib

/-!
# Verification of the crafty MCTS crafting solver core

Shallow embedding of the `crafty` crate core (`src/crafty/src/action.rs`,
`craft_state.rs`, `craft_context.rs`, `simulator.rs`, `action_set.rs`) and
proofs about the claims on its specification.

Modelling conventions:
* Rust `u8`/`u32`/`usize` fields are modelled as `Nat`; the `i8` durability
  is modelled as `Int`.  Overflow-free usage is part of what is proved.
* `f32` quantities (scores, MCTS statistics) are modelled as exact rationals
  (`Rat`); the truncating `as u32` casts become floors.  Every concrete
  computation settled here is far from any float-rounding boundary.
* The `ActionSet` `u32` bitset is modelled by its list of members (a sublist
  of the fixed action order), with `keep` as `List.filter`.
-/

namespace Crafty

/-- The closed action enumeration from `action.rs` (`create_actions!`),
in source declaration order. -/
inductive Action where
  | BasicSynthesis
  | BasicTouch
  | MastersMend
  | Observe
  | WasteNot
  | Veneration
  | StandardTouch
  | GreatStrides
  | Innovation
  | BasicSynthesisTraited
  | WasteNotII
  | ByregotsBlessing
  | MuscleMemory
  | CarefulSynthesis
  | Manipulation
  | PrudentTouch
  | AdvancedTouch
  | Reflect
  | PreparatoryTouch
  | Groundwork
  | DelicateSynthesis
  | TrainedEye
  | CarefulSynthesisTraited
  | GroundworkTraited
  | PrudentSynthesis
  | TrainedFinesse
  | RefinedTouch
  | DelicateSynthesisTraited
  | QuickInnovation
  | ImmaculateMend
  | TrainedPerfection
  deriving DecidableEq, Repr, Inhabited

/-- The numeric part of the `Attributes` record of `action.rs`.  The optional
`effect` closure is modelled separately (see `Action.effectFn`) because it
mentions `CraftState`. -/
structure Attributes where
  level : Nat
  progressEfficiency : Option Nat := none
  qualityEfficiency : Option Nat := none
  durabilityCost : Option Int := none
  cpCost : Option Nat := none
  deriving DecidableEq, Repr

/-- The per-action attribute table from the `create_actions!` invocation. -/
def Action.attributes : Action → Attributes
  | .BasicSynthesis => { level := 1, progressEfficiency := some 100, durabilityCost := some 10 }
  | .BasicTouch =>
      { level := 5, qualityEfficiency := some 100, durabilityCost := some 10, cpCost := some 18 }
  | .MastersMend => { level := 7, durabilityCost := some 0, cpCost := some 88 }
  | .Observe => { level := 13, durabilityCost := some 0, cpCost := some 7 }
  | .WasteNot => { level := 15, cpCost := some 56 }
  | .Veneration => { level := 15, cpCost := some 18 }
  | .StandardTouch =>
      { level := 18, qualityEfficiency := some 125, durabilityCost := some 10, cpCost := some 32 }
  | .GreatStrides => { level := 21, cpCost := some 32 }
  | .Innovation => { level := 26, cpCost := some 18 }
  | .BasicSynthesisTraited =>
      { level := 31, progressEfficiency := some 120, durabilityCost := some 10 }
  | .WasteNotII => { level := 47, cpCost := some 98 }
  | .ByregotsBlessing =>
      { level := 50, qualityEfficiency := some 0, durabilityCost := some 10, cpCost := some 24 }
  | .MuscleMemory =>
      { level := 54, progressEfficiency := some 300, durabilityCost := some 10, cpCost := some 6 }
  | .CarefulSynthesis =>
      { level := 62, progressEfficiency := some 150, durabilityCost := some 10, cpCost := some 7 }
  | .Manipulation => { level := 65, cpCost := some 96 }
  | .PrudentTouch =>
      { level := 66, qualityEfficiency := some 100, durabilityCost := some 5, cpCost := some 25 }
  | .AdvancedTouch =>
      { level := 68, qualityEfficiency := some 150, durabilityCost := some 10, cpCost := some 46 }
  | .Reflect =>
      { level := 69, qualityEfficiency := some 300, durabilityCost := some 10, cpCost := some 6 }
  | .PreparatoryTouch =>
      { level := 71, qualityEfficiency := some 200, durabilityCost := some 20, cpCost := some 40 }
  | .Groundwork =>
      { level := 72, progressEfficiency := some 300, durabilityCost := some 20, cpCost := some 18 }
  | .DelicateSynthesis =>
      { level := 76, progressEfficiency := some 100, qualityEfficiency := some 100,
        durabilityCost := some 10, cpCost := some 32 }
  | .TrainedEye =>
      { level := 80, qualityEfficiency := some 0, durabilityCost := some 0, cpCost := some 250 }
  | .CarefulSynthesisTraited =>
      { level := 82, progressEfficiency := some 180, durabilityCost := some 10, cpCost := some 7 }
  | .GroundworkTraited =>
      { level := 86, progressEfficiency := some 360, durabilityCost := some 20, cpCost := some 18 }
  | .PrudentSynthesis =>
      { level := 88, progressEfficiency := some 180, durabilityCost := some 5, cpCost := some 18 }
  | .TrainedFinesse => { level := 90, qualityEfficiency := some 100, cpCost := some 32 }
  | .RefinedTouch => { level := 92, qualityEfficiency := some 100, cpCost := some 24 }
  | .DelicateSynthesisTraited =>
      { level := 94, progressEfficiency := some 150, qualityEfficiency := some 100,
        durabilityCost := some 10, cpCost := some 32 }
  | .QuickInnovation => { level := 96 }
  | .ImmaculateMend => { level := 98, durabilityCost := some 0, cpCost := some 112 }
  | .TrainedPerfection => { level := 100, durabilityCost := some 0 }

/-- `Action::ACTIONS`: all actions in declaration order (the bitset index
order of `enum_indexing`). -/
def ACTIONS : List Action :=
  [.BasicSynthesis, .BasicTouch, .MastersMend, .Observe, .WasteNot, .Veneration,
   .StandardTouch, .GreatStrides, .Innovation, .BasicSynthesisTraited, .WasteNotII,
   .ByregotsBlessing, .MuscleMemory, .CarefulSynthesis, .Manipulation, .PrudentTouch,
   .AdvancedTouch, .Reflect, .PreparatoryTouch, .Groundwork, .DelicateSynthesis,
   .TrainedEye, .CarefulSynthesisTraited, .GroundworkTraited, .PrudentSynthesis,
   .TrainedFinesse, .RefinedTouch, .DelicateSynthesisTraited, .QuickInnovation,
   .ImmaculateMend, .TrainedPerfection]

/-- The buff counters of `craft_state.rs` (`struct Buffs`). -/
structure Buffs where
  innerQuiet : Nat := 0
  wasteNot : Nat := 0
  wasteNotII : Nat := 0
  manipulation : Nat := 0
  greatStrides : Nat := 0
  innovation : Nat := 0
  veneration : Nat := 0
  muscleMemory : Nat := 0
  deriving DecidableEq, Repr, Inhabited

/-- `Buffs::decrement_timers`: decrement every timer except inner quiet,
saturating at 0 (`saturating_sub`). -/
def Buffs.decrementTimers (b : Buffs) : Buffs :=
  { b with
    wasteNot := b.wasteNot - 1
    wasteNotII := b.wasteNotII - 1
    manipulation := b.manipulation - 1
    greatStrides := b.greatStrides - 1
    innovation := b.innovation - 1
    veneration := b.veneration - 1
    muscleMemory := b.muscleMemory - 1 }

/-- Player input (`core/src/player.rs`, as consumed by `CraftContext::new`). -/
structure Player where
  jobLevel : Nat
  craftsmanship : Nat
  control : Nat
  cp : Nat
  deriving DecidableEq, Repr

/-- Recipe input (`recipe/src/lib.rs`). -/
structure Recipe where
  recipeLevel : Nat
  jobLevel : Nat
  stars : Nat
  progress : Nat
  quality : Nat
  durability : Int
  progressDiv : Nat
  progressMod : Nat
  qualityDiv : Nat
  qualityMod : Nat
  isExpert : Bool
  conditionsFlag : Nat
  deriving DecidableEq, Repr

/-- `CraftOptions` from `craft_context.rs`. -/
structure CraftOptions where
  maxSteps : Nat
  startingQuality : Option Nat := none
  qualityTarget : Option Nat := none
  playerIsSpecialist : Bool := false
  useManipulation : Bool := false
  useDelineation : Bool := false
  deriving DecidableEq, Repr

/-- `CraftContext` from `craft_context.rs`. The `action_pool` bitset is the
list of its member actions. -/
structure CraftContext where
  playerJobLevel : Nat
  recipeJobLevel : Nat
  baseProgressFactor : Nat
  baseQualityFactor : Nat
  stepMax : Nat
  progressTarget : Nat
  startingQuality : Nat
  qualityTarget : Nat
  durabilityMax : Int
  cpMax : Nat
  isExpert : Bool
  actionPool : List Action
  playerIsSpecialist : Bool
  useManipulation : Bool
  useDelineation : Bool
  deriving DecidableEq, Repr

/-- `CraftState` from `craft_state.rs`.  The shared `&CraftContext` is held
by value; the `f32` MCTS statistics are exact rationals. -/
structure CraftState where
  context : CraftContext
  step : Nat
  progress : Nat
  quality : Nat
  durability : Int
  cp : Nat
  previousComboAction : Option Action
  quickInnovationAvailable : Bool
  trainedPerfectionActive : Option Bool
  buffs : Buffs
  action : Option Action
  scoreSum : Rat
  maxScore : Rat
  visits : Rat
  availableMoves : List Action
  deriving DecidableEq, Repr

/-- `Action::calc_progress_increase`.  The `f32` expression
`base * e * multiplier / 100.0` (multiplier in `{1, 1.5, 2, 2.5}`), truncated
by `as u32`, is computed exactly: `base * e * m10 / 1000` with
`m10 = 10 + 5·[veneration>0] + 10·[muscle_memory>0]`. -/
def calcProgressIncrease (state : CraftState) (efficiency : Nat) : Nat :=
  let base := state.context.baseProgressFactor
  let m10 := 10 + (if 0 < state.buffs.veneration then 5 else 0)
      + (if 0 < state.buffs.muscleMemory then 10 else 0)
  base * efficiency * m10 / 1000

/-- `Action::calc_quality_increase`.  The `f32` expression
`base * e * modifier / 100.0` with
`modifier = (1 + inner_quiet/10) * (1 + 0.5·[innovation>0] + 1.0·[great_strides>0])`
is computed exactly: `base * e * (10 + iq) * m10 / 10000`. -/
def calcQualityIncrease (state : CraftState) (efficiency : Nat) : Nat :=
  if state.action = some .TrainedEye then
    state.context.qualityTarget - state.quality
  else
    let base := state.context.baseQualityFactor
    let efficiency :=
      if state.action = some .ByregotsBlessing then 100 + state.buffs.innerQuiet * 20
      else efficiency
    let m10 := 10 + (if 0 < state.buffs.innovation then 5 else 0)
        + (if 0 < state.buffs.greatStrides then 10 else 0)
    base * efficiency * (10 + state.buffs.innerQuiet) * m10 / 10000

/-- `Action::calc_durability_cost`.  `i8` division truncates toward zero
(`Int.div`). -/
def calcDurabilityCost (state : CraftState) (baseCost : Int) : Int :=
  if state.previousComboAction = some .TrainedPerfection then 0
  else if 0 < state.buffs.wasteNot ∨ 0 < state.buffs.wasteNotII then Int.tdiv baseCost 2
  else baseCost

/-- `Action::calc_cp_cost`: combo pricing keyed on
`(state.previous_combo_action, state.action)`. -/
def calcCpCost (state : CraftState) (baseCost : Nat) : Nat :=
  match state.previousComboAction, state.action with
  | some .BasicTouch, some .StandardTouch => 18
  | some .StandardTouch, some .AdvancedTouch => 18
  | some .Observe, some .AdvancedTouch => 18
  | _, _ => baseCost

/-- `Modelled from the spec:` the `TrainedPerfection` effect.  The source
closure assigns `state.trained_perfection_available = false`, a field that
does not exist on `CraftState` (the struct has `trained_perfection_active`),
so that line does not compile; the spec states the flag transitions
`none → active`, matching the consumption logic in `_execute`
(`Some(true) → Some(false)` after a positive base durability cost). -/
def trainedPerfectionEffect (state : CraftState) : CraftState :=
  { state with trainedPerfectionActive := some true }

/-- The optional `effect` closures from the `create_actions!` table. -/
def Action.effectFn : Action → Option (CraftState → CraftState)
  | .MastersMend => some fun state =>
      { state with durability := min (state.durability + 30) state.context.durabilityMax }
  | .WasteNot => some fun state =>
      { state with buffs := { state.buffs with wasteNot := 4, wasteNotII := 0 } }
  | .Veneration => some fun state =>
      { state with buffs := { state.buffs with veneration := 4 } }
  | .GreatStrides => some fun state =>
      { state with buffs := { state.buffs with greatStrides := 3 } }
  | .Innovation => some fun state =>
      { state with buffs := { state.buffs with innovation := 4 } }
  | .WasteNotII => some fun state =>
      { state with buffs := { state.buffs with wasteNot := 0, wasteNotII := 8 } }
  | .MuscleMemory => some fun state =>
      { state with buffs := { state.buffs with muscleMemory := 5 } }
  | .Manipulation => some fun state =>
      { state with buffs := { state.buffs with manipulation := 8 } }
  | .QuickInnovation => some fun state =>
      { state with
        buffs := { state.buffs with innovation := 1 }
        quickInnovationAvailable := false }
  | .ImmaculateMend => some fun state =>
      { state with durability := state.context.durabilityMax }
  | .TrainedPerfection => some trainedPerfectionEffect
  | _ => none

/-- The action-specific `match` at the end of the `keep` closure of
`CraftState::set_available_moves` (both modes; `strict`-guarded arms become
`if strict`). -/
def allowedByMatch (s : CraftState) (strict : Bool) (a : Action) : Bool :=
  match a with
  | .MuscleMemory | .Reflect => s.step == 1
  | .TrainedEye => s.step == 1 && !s.context.isExpert
  | .ByregotsBlessing =>
      if strict then decide (1 < s.buffs.innerQuiet) else decide (0 < s.buffs.innerQuiet)
  | .TrainedFinesse => s.buffs.innerQuiet == 10
  | .TrainedPerfection => s.trainedPerfectionActive == none
  | .PrudentSynthesis | .PrudentTouch =>
      s.buffs.wasteNot == 0 && s.buffs.wasteNotII == 0
  | .WasteNot | .WasteNotII =>
      if strict then s.buffs.wasteNot == 0 && s.buffs.wasteNotII == 0 else true
  | .Observe =>
      if strict then s.previousComboAction != some .Observe && decide (25 ≤ s.cp)
      else s.previousComboAction != some .Observe
  | .Groundwork | .GroundworkTraited =>
      decide (calcDurabilityCost s (a.attributes.durabilityCost.getD 0) ≤ s.durability)
  | .RefinedTouch => s.previousComboAction == some .BasicTouch
  | .ImmaculateMend =>
      if strict then
        decide (45 < s.context.durabilityMax - s.durability) && s.buffs.manipulation == 0
      else true
  | .MastersMend =>
      if strict then decide (25 ≤ s.context.durabilityMax - s.durability) else true
  | .Manipulation =>
      if strict then s.context.useManipulation && s.buffs.manipulation == 0
      else s.context.useManipulation
  | .GreatStrides => if strict then s.buffs.greatStrides == 0 else true
  | .Veneration | .Innovation =>
      if strict then decide (s.buffs.veneration ≤ 1) && decide (s.buffs.innovation ≤ 1)
      else true
  | .QuickInnovation =>
      if strict then
        s.quickInnovationAvailable && s.buffs.innovation == 0
          && decide (s.context.qualityTarget / 3 < s.quality)
      else s.quickInnovationAvailable && s.buffs.innovation == 0
  | .AdvancedTouch | .BasicSynthesis | .BasicSynthesisTraited | .BasicTouch
  | .CarefulSynthesis | .CarefulSynthesisTraited | .DelicateSynthesis
  | .DelicateSynthesisTraited | .PreparatoryTouch | .StandardTouch => true

/-- The strict-only pruning block (`if strict { ... }`) of the `keep`
closure, ending in the shared `match` (`allowedByMatch`).  Early `return
false` sites become `false` branches; the TrainedEye force is an early
`return action == &TrainedEye`. -/
def keepStrict (s : CraftState) (a : Action) : Bool :=
  if s.step == 1 && decide (0 < s.context.qualityTarget) && !s.context.isExpert
      && decide (Action.TrainedEye ∈ s.context.actionPool) then
    a == .TrainedEye
  else if s.context.recipeJobLevel == s.context.playerJobLevel
      && decide (0 < s.buffs.muscleMemory) && (a.attributes.qualityEfficiency).isSome then
    false
  else if decide (0 < s.buffs.veneration) && (a.attributes.progressEfficiency).isNone
      && (a.attributes.qualityEfficiency).isSome then
    false
  else if s.previousComboAction == some .Observe && a != .AdvancedTouch then
    false
  else
    match a.attributes.progressEfficiency with
    | some progressEff =>
      if s.context.progressTarget ≤ s.progress + calcProgressIncrease s progressEff then
        if s.quality < s.context.qualityTarget / 5 then false
        else allowedByMatch s true a
      else
        if decide (0 < s.buffs.innovation) && (a.attributes.qualityEfficiency).isNone
            && (a.attributes.progressEfficiency).isSome then false
        else allowedByMatch s true a
    | none => allowedByMatch s true a

/-- The full `keep` closure of `CraftState::set_available_moves`: CP budget
check, quality-saturation check, then the strict block or the shared
`match`. -/
def keepAction (s : CraftState) (strict : Bool) (a : Action) : Bool :=
  let attrs := a.attributes
  if (match attrs.cpCost with
      | some baseCost => decide (s.cp < calcCpCost s baseCost)
      | none => false) then false
  else if decide (s.context.qualityTarget ≤ s.quality) && attrs.qualityEfficiency.isSome then
    false
  else if strict then keepStrict s a
  else allowedByMatch s false a

/-- `CraftState::set_available_moves`: on a terminal-looking state the set is
left unchanged; otherwise it is repopulated from `context.action_pool`
filtered by the `keep` closure. -/
def CraftState.setAvailableMoves (s : CraftState) (strict : Bool) : CraftState :=
  if s.context.progressTarget ≤ s.progress ∨ s.context.stepMax ≤ s.step ∨ s.durability ≤ 0 then
    s
  else
    { s with availableMoves := s.context.actionPool.filter (keepAction s strict) }

/-!
`CraftState::_execute` is embedded as the composition of its sequential
blocks (numbered as in spec section 4.3); each block is a small function so
the invariant proofs can reason per block.
-/

/-- `_execute` step 1: copy the scalar fields, bump `step` (except for
QuickInnovation), record the action, zero the MCTS statistics, clear the
move set. -/
def execInit (s : CraftState) (a : Action) : CraftState :=
  { s with
    step := if a = .QuickInnovation then s.step else s.step + 1
    action := some a
    scoreSum := 0
    maxScore := 0
    visits := 0
    availableMoves := [] }

/-- `_execute` step 2: progress gain and muscle-memory reset. -/
def applyProgress (a : Action) (st : CraftState) : CraftState :=
  match (a.attributes).progressEfficiency with
  | some efficiency =>
      let st1 := { st with progress := st.progress + calcProgressIncrease st efficiency }
      { st1 with buffs := { st1.buffs with muscleMemory := 0 } }
  | none => st

/-- `_execute` step 3: quality gain, the inner-quiet update (suppressed
below player level 11), and the great-strides reset. -/
def applyQuality (a : Action) (st : CraftState) : CraftState :=
  match (a.attributes).qualityEfficiency with
  | some efficiency =>
      let st1 := { st with quality := st.quality + calcQualityIncrease st efficiency }
      let st2 :=
        if 11 ≤ st1.context.playerJobLevel then
          { st1 with buffs := { st1.buffs with innerQuiet :=
              match st1.previousComboAction, a with
              | some .BasicTouch, .RefinedTouch => min (st1.buffs.innerQuiet + 2) 10
              | _, .Reflect => min (st1.buffs.innerQuiet + 2) 10
              | _, .PreparatoryTouch => min (st1.buffs.innerQuiet + 2) 10
              | _, .ByregotsBlessing => 0
              | _, _ => min (st1.buffs.innerQuiet + 1) 10 } }
        else st1
      { st2 with buffs := { st2.buffs with greatStrides := 0 } }
  | none => st

/-- `_execute` step 4: durability cost and trained-perfection consumption. -/
def applyDurability (a : Action) (st : CraftState) : CraftState :=
  match (a.attributes).durabilityCost with
  | some baseCost =>
      let st1 := { st with durability := st.durability - calcDurabilityCost st baseCost }
      if 0 < baseCost ∧ st1.trainedPerfectionActive = some true then
        { st1 with trainedPerfectionActive := some false }
      else st1
  | none => st

/-- `_execute` step 5: manipulation regeneration (capped at the maximum). -/
def applyManipulation (st : CraftState) : CraftState :=
  if 0 < st.buffs.manipulation ∧ (0 : Int) < st.durability then
    { st with durability := min (st.durability + 5) st.context.durabilityMax }
  else st

/-- `_execute` step 6: CP cost (post-combo pricing). -/
def applyCp (a : Action) (st : CraftState) : CraftState :=
  match (a.attributes).cpCost with
  | some baseCost => { st with cp := st.cp - calcCpCost st baseCost }
  | none => st

/-- `_execute` step 7: the combo-anchor update. -/
def updateCombo (a : Action) (st : CraftState) : CraftState :=
  { st with previousComboAction :=
      match st.previousComboAction, a with
      | some .BasicTouch, .StandardTouch => some a
      | some .BasicTouch, .RefinedTouch => some a
      | _, .BasicTouch => some a
      | _, .Observe => some a
      | _, _ => none }

/-- `_execute` step 8: buff-timer decrement (skipped by QuickInnovation). -/
def applyDecrement (a : Action) (st : CraftState) : CraftState :=
  if a ≠ .QuickInnovation then { st with buffs := st.buffs.decrementTimers } else st

/-- `_execute` step 9: the action's effect closure, applied last. -/
def applyEffect (a : Action) (st : CraftState) : CraftState :=
  match a.effectFn with
  | some f => f st
  | none => st

/-- `CraftState::_execute`: the core transition, before repopulating
`available_moves`; the composition of steps 1-9. -/
def CraftState.execBase (s : CraftState) (a : Action) : CraftState :=
  applyEffect a (applyDecrement a (updateCombo a (applyCp a (applyManipulation
    (applyDurability a (applyQuality a (applyProgress a (execInit s a))))))))

/-- `CraftState::execute`: transition then non-strict move repopulation. -/
def CraftState.execute (s : CraftState) (a : Action) : CraftState :=
  (s.execBase a).setAvailableMoves false

/-- `CraftState::execute_strict`. -/
def CraftState.executeStrict (s : CraftState) (a : Action) : CraftState :=
  (s.execBase a).setAvailableMoves true

/-- `CraftState::score`, with the `f32` weights `0.20/0.65/0.05/0.05/0.05`
as exact rationals.  (In `f32`, division by a zero target yields `inf` and
`min 1` clamps it to 1, while `Rat` division by zero yields 0; `score` is
only invoked with `quality_target > 0` and positive targets, where the two
agree on the branch structure.) -/
def CraftState.score (s : CraftState) : Rat :=
  let applyBonus := fun (bonus value target : Rat) => bonus * min 1 (value / target)
  let progressScore := applyBonus 0.20 s.progress s.context.progressTarget
  let qualityScore := applyBonus 0.65 s.quality s.context.qualityTarget
  let durabilityScore := applyBonus 0.05 s.durability s.context.durabilityMax
  let cpScore := applyBonus 0.05 s.cp s.context.cpMax
  let fewerStepsScore := 0.05 * (1 - (s.step : Rat) / (s.context.stepMax : Rat))
  progressScore + qualityScore + durabilityScore + cpScore + fewerStepsScore

/-- `CraftState::score_no_quality`. -/
def CraftState.scoreNoQuality (s : CraftState) : Rat :=
  1 - (s.step : Rat) / (s.context.stepMax : Rat)

/-- `CraftResult` from `craft_state.rs`; the `Finished` score is a rational
(`f32` in the source). -/
inductive CraftResult where
  | Finished (score : Rat)
  | DurabilityFailure
  | MaxStepsFailure
  | InvalidActionFailure
  deriving DecidableEq, Repr

/-- `CraftState::check_result`. -/
def CraftState.checkResult (s : CraftState) : Option CraftResult :=
  if s.context.progressTarget ≤ s.progress then
    some (.Finished (if 0 < s.context.qualityTarget then s.score else s.scoreNoQuality))
  else if s.durability ≤ 0 then some .DurabilityFailure
  else if s.context.stepMax ≤ s.step then some .MaxStepsFailure
  else if s.availableMoves.isEmpty then some .InvalidActionFailure
  else none

/-- `CraftContext::base_factors`: the `f32` computation
`stat*10/div + constant`, conditionally scaled by `mod/100`, truncated by
`as u32`.  It is carried out exactly: for a positive divisor the truncation
of the exact rational `((stat*10)/div + c) * mod/100` is the integer
quotient `(stat*10 + c*div) * mod / (div*100)` (and at every input
considered here the exact value is far from any float-rounding boundary). -/
def baseFactors (player : Player) (recipe : Recipe) : Nat × Nat :=
  let scaled := player.jobLevel ≤ recipe.jobLevel
  let bpNum := player.craftsmanship * 10 + 2 * recipe.progressDiv
  let bqNum := player.control * 10 + 35 * recipe.qualityDiv
  let baseProgressFactor :=
    if scaled then bpNum * recipe.progressMod / (recipe.progressDiv * 100)
    else bpNum / recipe.progressDiv
  let baseQualityFactor :=
    if scaled then bqNum * recipe.qualityMod / (recipe.qualityDiv * 100)
    else bqNum / recipe.qualityDiv
  (baseProgressFactor, baseQualityFactor)

/-- `CraftContext::determine_action_pool`. -/
def determineActionPool (player : Player) (recipe : Recipe) : List Action :=
  let pool := ACTIONS.filter fun a =>
    decide (a.attributes.level ≤ player.jobLevel)
      && decide (a.attributes.cpCost.getD 0 ≤ player.cp)
      && !(a == .TrainedEye && decide (player.jobLevel - recipe.jobLevel < 10))
  let pool :=
    if Action.BasicSynthesisTraited ∈ pool ∧ Action.BasicSynthesis ∈ pool then
      pool.erase .BasicSynthesis
    else pool
  let pool :=
    if Action.CarefulSynthesisTraited ∈ pool ∧ Action.CarefulSynthesis ∈ pool then
      pool.erase .CarefulSynthesis
    else pool
  let pool :=
    if Action.GroundworkTraited ∈ pool ∧ Action.Groundwork ∈ pool then
      pool.erase .Groundwork
    else pool
  let pool :=
    if Action.DelicateSynthesisTraited ∈ pool ∧ Action.DelicateSynthesis ∈ pool then
      pool.erase .DelicateSynthesis
    else pool
  pool

/-- `CraftContext::new`. -/
def CraftContext.new (player : Player) (recipe : Recipe) (options : CraftOptions) : CraftContext :=
  let factors := baseFactors player recipe
  { playerJobLevel := player.jobLevel
    recipeJobLevel := recipe.jobLevel
    baseProgressFactor := factors.1
    baseQualityFactor := factors.2
    stepMax := options.maxSteps
    progressTarget := recipe.progress
    startingQuality := options.startingQuality.getD 0
    qualityTarget := options.qualityTarget.getD recipe.quality
    durabilityMax := recipe.durability
    cpMax := player.cp
    isExpert := recipe.isExpert
    actionPool := determineActionPool player recipe
    playerIsSpecialist := options.playerIsSpecialist
    useManipulation := options.useManipulation
    useDelineation := options.useDelineation }

/-- `CraftState::_new`. -/
def CraftState.mkNew (context : CraftContext) : CraftState :=
  { context
    step := 1
    progress := 0
    quality := context.startingQuality
    durability := context.durabilityMax
    cp := context.cpMax
    previousComboAction := none
    quickInnovationAvailable := context.useDelineation
    trainedPerfectionActive := none
    buffs := {}
    action := none
    scoreSum := 0
    maxScore := 0
    visits := 0
    availableMoves := [] }

/-- `CraftState::new`. -/
def CraftState.new (context : CraftContext) : CraftState :=
  (CraftState.mkNew context).setAvailableMoves false

/-- `CraftState::new_strict`. -/
def CraftState.newStrict (context : CraftContext) : CraftState :=
  (CraftState.mkNew context).setAvailableMoves true

/-- `CraftState::clone_strict`. -/
def CraftState.cloneStrict (s : CraftState) : CraftState :=
  s.setAvailableMoves true

instance : Inhabited CraftState :=
  ⟨{ context :=
      { playerJobLevel := 0, recipeJobLevel := 0, baseProgressFactor := 0,
        baseQualityFactor := 0, stepMax := 0, progressTarget := 0, startingQuality := 0,
        qualityTarget := 0, durabilityMax := 0, cpMax := 0, isExpert := false,
        actionPool := [], playerIsSpecialist := false, useManipulation := false,
        useDelineation := false }
     step := 1, progress := 0, quality := 0, durability := 0, cp := 0,
     previousComboAction := none, quickInnovationAvailable := false,
     trainedPerfectionActive := none, buffs := {}, action := none,
     scoreSum := 0, maxScore := 0, visits := 0, availableMoves := [] }⟩

/-! ## The simulator (`simulator.rs`)

The arena is modelled per its interface as consumed by `simulator.rs`
(append-only nodes with `state`, `parent`, `children`; `tree.rs` in the
snapshot is an older revision of the same structure).  Two pieces of
behaviour external to the repository are abstracted:

* `SmallRng` (the `rand` crate): a seeded deterministic generator, modelled
  as a pure stream `rngF : seed → draw index → Nat`; each `gen_range(0..n)`
  consumes one draw, reduced `% n`.  `ActionSet::pick/sample` choose the
  n-th member bit; on the list model this indexes the member list (from the
  high-bit end, hence `reverse`).
* `Simulator::eval` computes an `f32` UCB score using `sqrt`/`ln`; `select`
  only uses it through `partial_cmp`.  It is abstracted as a parameter
  `evalF` into a linearly ordered type, so every theorem below holds for the
  source's concrete scoring function.
-/

/-- A node of the arena tree as used by `simulator.rs`. -/
structure SimNode where
  state : CraftState
  parent : Option Nat
  children : List Nat
  deriving DecidableEq, Repr

instance : Inhabited SimNode := ⟨{ state := default, parent := none, children := [] }⟩

/-- `SearchOptions` from `simulator.rs`. -/
structure SearchOptions where
  iterations : Nat
  rngSeed : Option Nat := none
  scoreStorageThreshold : Option Rat := none
  maxScoreWeightingConstant : Option Rat := none
  explorationConstant : Option Rat := none
  deriving DecidableEq, Repr

/-- `SearchOptions::default()`.  `rng_seed` is drawn from entropy there; the
entropy source is made explicit as an argument. -/
def SearchOptions.defaultOpts (entropy : Nat) : SearchOptions :=
  { iterations := 10000
    rngSeed := some entropy
    scoreStorageThreshold := some 1
    maxScoreWeightingConstant := some 0.1
    explorationConstant := some 1.5 }

/-- The `Simulator` struct (tree plus hyperparameters plus RNG state; the
RNG state is the seed and the number of draws made so far). -/
structure Sim where
  tree : List SimNode
  iterations : Nat
  deadEndsSelected : Nat
  rngSeed : Nat
  rngCounter : Nat
  scoreStorageThreshold : Rat
  maxScoreWeightingConstant : Rat
  explorationConstant : Rat
  deriving DecidableEq, Repr

/-- `Arena::get` (total on the list model; out-of-range access, a panic in
the source, returns the default node). -/
def treeGet (t : List SimNode) (i : Nat) : SimNode := t.getD i default

/-- `Simulator::from_state`.  The `or(defaults…).unwrap()` chains resolve a
missing option to the default; the default seed is the entropy argument. -/
def Simulator.fromState (state : CraftState) (options : SearchOptions) (entropy : Nat) : Sim :=
  { tree := [{ state := state, parent := none, children := [] }]
    iterations := options.iterations
    deadEndsSelected := 0
    rngSeed := match options.rngSeed with | some s => s | none => entropy
    rngCounter := 0
    scoreStorageThreshold := (options.scoreStorageThreshold).getD 1
    maxScoreWeightingConstant := (options.maxScoreWeightingConstant).getD 0.1
    explorationConstant := (options.explorationConstant).getD 1.5 }

/-- `Simulator::from_context`: roots the tree at the fresh initial state
`CraftState::new(context)`. -/
def Simulator.fromContext (context : CraftContext) (options : SearchOptions) (entropy : Nat) :
    Sim :=
  Simulator.fromState (CraftState.new context) options entropy

/-- In-place mutation of one tree node's state (`&mut` access through
`Arena::get_mut`), leaving its `parent` and `children` untouched. -/
def modifyState (t : List SimNode) (i : Nat) (f : CraftState → CraftState) : List SimNode :=
  t.set i { treeGet t i with state := f (treeGet t i).state }

/-- `Arena::insert`: append a node under `parentIndex` and record it in the
parent's child list; returns the new index. -/
def Sim.insertNode (sim : Sim) (parentIndex : Nat) (st : CraftState) : Sim × Nat :=
  let index := sim.tree.length
  let parentNode := treeGet sim.tree parentIndex
  let tree := sim.tree.set parentIndex { parentNode with children := parentNode.children ++ [index] }
  ({ sim with tree := tree ++ [{ state := st, parent := some parentIndex, children := [] }] }, index)

/-- `Simulator::execute_actions` / `execute_actions_strict` (the two source
functions are identical except for the executor used, selected by
`strict`): replay a sequence against the tree, inserting each successor. -/
def Sim.executeActionsAux (strict : Bool) : Sim → Nat → List Action → Sim × Nat × Option CraftResult
  | sim, currentIndex, [] =>
      (sim, currentIndex, (treeGet sim.tree currentIndex).state.checkResult)
  | sim, currentIndex, action :: rest =>
      let currentState := (treeGet sim.tree currentIndex).state
      match currentState.checkResult with
      | some result => (sim, currentIndex, some result)
      | none =>
        if action ∈ currentState.availableMoves then
          let currentState :=
            { currentState with availableMoves := currentState.availableMoves.erase action }
          let sim :=
            { sim with
              tree := modifyState sim.tree currentIndex
                (fun st => { st with availableMoves := st.availableMoves.erase action }) }
          let nextState :=
            if strict then currentState.executeStrict action else currentState.execute action
          let (sim, nextIndex) := sim.insertNode currentIndex nextState
          Sim.executeActionsAux strict sim nextIndex rest
        else (sim, currentIndex, some .InvalidActionFailure)

/-- `Simulator::simulate`: build a simulator from the context (with default
options) and replay non-strictly. -/
def Simulator.simulate (context : CraftContext) (actions : List Action) (entropy : Nat) :
    CraftState × Option CraftResult :=
  let sim := Simulator.fromContext context (SearchOptions.defaultOpts entropy) entropy
  let (sim, index, result) := Sim.executeActionsAux false sim 0 actions
  ((treeGet sim.tree index).state, result)

section Search

variable {β : Type} [LinearOrder β]
variable (evalF : CraftState → CraftState → β) (rngF : Nat → Nat → Nat)

/-- Rust `Iterator::max_by` on a comparison of scores: returns the last
maximal element (later elements win ties); `none` only on the empty list. -/
def maxByLast (f : Nat → β) : List Nat → Option Nat
  | [] => none
  | x :: xs => some (xs.foldl (fun best c => if f best > f c then best else c) x)

/-- The descent loop of `Simulator::select`.  The source loop carries no
fuel; node indices strictly increase along `children` (arena invariant), so
`tree.length` steps always suffice. -/
def selectGo (sim : Sim) : Nat → Nat → Nat
  | 0, selectedIndex => selectedIndex
  | fuel + 1, selectedIndex =>
    let selectedNode := treeGet sim.tree selectedIndex
    let expandable := !selectedNode.state.availableMoves.isEmpty
    let likelyTerminal := selectedNode.children.isEmpty
    if expandable || likelyTerminal then selectedIndex
    else
      match maxByLast (fun c => evalF (treeGet sim.tree c).state selectedNode.state)
          selectedNode.children with
      | some c => selectGo sim fuel c
      | none => selectedIndex

/-- `Simulator::select`. -/
def Sim.select (sim : Sim) (currentIndex : Nat) : Nat :=
  selectGo evalF sim sim.tree.length currentIndex

/-- The playout loop of `Simulator::expand_and_rollout`.  The source loop
carries no fuel; each strict execution either increments `step` (bounded by
`step_max`, at which the state is terminal) or consumes the one-shot
QuickInnovation flag, so `2·step_max + 2` steps always suffice for the
states the search feeds it. -/
def rolloutGo (seed : Nat) : Nat → CraftState → List Action → Nat → List Action × CraftResult × Nat
  | 0, _, actionHistory, ctr => (actionHistory, .InvalidActionFailure, ctr)
  | fuel + 1, currentState, actionHistory, ctr =>
    match currentState.checkResult with
    | some result => (actionHistory, result, ctr)
    | none =>
      let moves := currentState.availableMoves
      let k := rngF seed ctr % moves.length
      let randomAction := moves.reverse.getD k default
      rolloutGo seed fuel (currentState.executeStrict randomAction)
        (actionHistory ++ [randomAction]) (ctr + 1)

/-- `Simulator::expand_and_rollout`. -/
def Sim.expandAndRollout (sim : Sim) (initialIndex : Nat) : Sim × Nat × CraftResult :=
  let initialState := (treeGet sim.tree initialIndex).state
  match initialState.checkResult with
  | some result => (sim, initialIndex, result)
  | none =>
    let moves := initialState.availableMoves
    let k := rngF sim.rngSeed sim.rngCounter % moves.length
    let randomAction := moves.reverse.getD k default
    let sim := { sim with rngCounter := sim.rngCounter + 1 }
    let initialState :=
      { initialState with availableMoves := initialState.availableMoves.erase randomAction }
    let sim :=
      { sim with
        tree := modifyState sim.tree initialIndex
          (fun st => { st with availableMoves := st.availableMoves.erase randomAction }) }
    let expandedState := initialState.executeStrict randomAction
    let (sim, expandedIndex) := sim.insertNode initialIndex expandedState
    let (actionHistory, result, ctr) :=
      rolloutGo rngF sim.rngSeed (2 * expandedState.context.stepMax + 2) expandedState []
        sim.rngCounter
    let sim := { sim with rngCounter := ctr }
    match result with
    | .Finished score =>
      if sim.scoreStorageThreshold ≤ score ∧ (treeGet sim.tree 0).state.maxScore ≤ score then
        let (sim, terminalIndex, _) := Sim.executeActionsAux true sim expandedIndex actionHistory
        (sim, terminalIndex, result)
      else (sim, expandedIndex, result)
    | _ => (sim, expandedIndex, result)

/-- The walk of `Simulator::backpropagate`.  The source loop carries no
fuel; parent indices strictly decrease (arena invariant), so `tree.length`
steps always suffice. -/
def backpropGo : Nat → Sim → Nat → Nat → Rat → Sim
  | 0, sim, _, _, _ => sim
  | fuel + 1, sim, currentIndex, targetIndex, score =>
    let sim :=
      { sim with
        tree := modifyState sim.tree currentIndex
          (fun st =>
            { st with
              visits := st.visits + 1
              scoreSum := st.scoreSum + score
              maxScore := max st.maxScore score }) }
    if currentIndex = targetIndex then sim
    else
      match (treeGet sim.tree currentIndex).parent with
      | some p => backpropGo fuel sim p targetIndex score
      | none => sim

/-- `Simulator::backpropagate`. -/
def Sim.backpropagate (sim : Sim) (startIndex targetIndex : Nat) (score : Rat) : Sim :=
  backpropGo sim.tree.length sim startIndex targetIndex score

/-- One iteration of the `Simulator::search` loop. -/
def Sim.searchIteration (sim : Sim) (startIndex : Nat) : Sim :=
  let selectedIndex := Sim.select evalF sim startIndex
  let (sim, endIndex, result) := Sim.expandAndRollout rngF sim selectedIndex
  let sim :=
    if selectedIndex = endIndex then
      { sim with deadEndsSelected := sim.deadEndsSelected + 1 }
    else sim
  let score := match result with | .Finished s => s | _ => 0
  sim.backpropagate endIndex startIndex score

/-- The counted `for` loop of `Simulator::search`. -/
def searchLoop (startIndex : Nat) : Nat → Sim → Sim
  | 0, sim => sim
  | n + 1, sim => searchLoop startIndex n (Sim.searchIteration evalF rngF sim startIndex)

/-- `Simulator::search`. -/
def Sim.search (sim : Sim) (startIndex : Nat) : Sim :=
  searchLoop evalF rngF startIndex sim.iterations sim

/-- The walk of `Simulator::solution` (greedy descent on `max_score`;
`max_by` ties go to the last child). -/
def solutionGo (sim : Sim) : Nat → Nat → List Action → List Action × CraftState
  | 0, idx, actions => (actions, (treeGet sim.tree idx).state)
  | fuel + 1, idx, actions =>
    let node := treeGet sim.tree idx
    if node.children.isEmpty then (actions, node.state)
    else
      match maxByLast (fun c => (treeGet sim.tree c).state.maxScore) node.children with
      | some nextIndex =>
        let nextNode := treeGet sim.tree nextIndex
        let actions :=
          match nextNode.state.action with
          | some a => actions ++ [a]
          | none => actions
        solutionGo sim fuel nextIndex actions
      | none => (actions, node.state)

/-- `Simulator::solution`. -/
def Sim.solution (sim : Sim) : List Action × CraftState :=
  solutionGo sim sim.tree.length 0 []

/-- `Simulator::search_oneshot`.  Note: the simulator is built with
`from_context`, i.e. rooted at the fresh initial state; `action_history` is
only prepended to the extracted solution. -/
def searchOneshot (context : CraftContext) (actionHistory : List Action)
    (searchOptions : SearchOptions) (entropy : Nat) : List Action × CraftState :=
  let sim := Simulator.fromContext context searchOptions entropy
  let sim := Sim.search evalF rngF sim 0
  let (actions, resultState) := sim.solution
  (actionHistory ++ actions, resultState)

end Search

/-! ## Concrete scenario data (spec §8, simulator test `setup_1`) -/

/-- The scenario player: level 90, 3304 craftsmanship, 3374 control, 575 CP. -/
def scenarioPlayer : Player :=
  { jobLevel := 90, craftsmanship := 3304, control := 3374, cp := 575 }

/-- The scenario recipe: rlvl 560, level 90, 3500 progress, 7200 quality,
80 durability, divisors 130/115, modifiers 90/80, not expert. -/
def scenarioRecipe : Recipe :=
  { recipeLevel := 560, jobLevel := 90, stars := 0, progress := 3500, quality := 7200,
    durability := 80, progressDiv := 130, progressMod := 90, qualityDiv := 115,
    qualityMod := 80, isExpert := false, conditionsFlag := 15 }

/-- The scenario context (`CraftContext::new` with 25 max steps and default
options, as in the simulator tests). -/
def scenarioContext : CraftContext :=
  CraftContext.new scenarioPlayer scenarioRecipe { maxSteps := 25 }

/-- `Simulator::simulate` never draws from the RNG, so its result does not
depend on the entropy used to seed the default options. -/
theorem executeActionsAux_tree_only (strict : Bool) (acts : List Action) :
    ∀ (sim sim' : Sim) (i : Nat), sim.tree = sim'.tree →
      (Sim.executeActionsAux strict sim i acts).1.tree
          = (Sim.executeActionsAux strict sim' i acts).1.tree
        ∧ (Sim.executeActionsAux strict sim i acts).2.1
          = (Sim.executeActionsAux strict sim' i acts).2.1
        ∧ (Sim.executeActionsAux strict sim i acts).2.2
          = (Sim.executeActionsAux strict sim' i acts).2.2 := by
  induction acts with
  | nil => intro sim sim' i h; simp [Sim.executeActionsAux, h]
  | cons a rest ih =>
    intro sim sim' i h
    simp only [Sim.executeActionsAux, h]
    cases hres : ((treeGet sim'.tree i).state).checkResult with
    | some r => simp [hres, h]
    | none =>
      simp only [hres]
      by_cases hmem : a ∈ (treeGet sim'.tree i).state.availableMoves
      · simp only [hmem, if_pos, Sim.insertNode]
        exact ih _ _ _ (by simp [h])
      · simp [hmem, h]

theorem simulate_entropy (ctx : CraftContext) (acts : List Action) (e : Nat) :
    Simulator.simulate ctx acts e = Simulator.simulate ctx acts 0 := by
  have h := executeActionsAux_tree_only false acts
    (Simulator.fromContext ctx (SearchOptions.defaultOpts e) e)
    (Simulator.fromContext ctx (SearchOptions.defaultOpts 0) 0) 0 rfl
  simp only [Simulator.simulate]
  rw [Prod.ext_iff]
  constructor
  · simp only [h.1, h.2.1]
  · exact h.2.2

/-! ## Claim theorems -/

/-- C6: for the concrete context built from the scenario player and recipe,
`simulate` applied to
`[Innovation, BasicTouch, StandardTouch, AdvancedTouch, StandardTouch, AdvancedTouch]`
returns a final state with progress 0, quality 2828, durability 30 and
cp 425 (the chained StandardTouch and AdvancedTouch each costing 18 CP);
this holds for every entropy input since the replay draws no randomness. -/
theorem simulate_basic_touch_combo (entropy : Nat) :
    ((Simulator.simulate scenarioContext
        [.Innovation, .BasicTouch, .StandardTouch, .AdvancedTouch, .StandardTouch,
          .AdvancedTouch] entropy).1.progress = 0)
    ∧ ((Simulator.simulate scenarioContext
        [.Innovation, .BasicTouch, .StandardTouch, .AdvancedTouch, .StandardTouch,
          .AdvancedTouch] entropy).1.quality = 2828)
    ∧ ((Simulator.simulate scenarioContext
        [.Innovation, .BasicTouch, .StandardTouch, .AdvancedTouch, .StandardTouch,
          .AdvancedTouch] entropy).1.durability = 30)
    ∧ ((Simulator.simulate scenarioContext
        [.Innovation, .BasicTouch, .StandardTouch, .AdvancedTouch, .StandardTouch,
          .AdvancedTouch] entropy).1.cp = 425) := by
  rw [simulate_entropy]
  decide

/-- Overwrite the three MCTS statistics of a state, leaving every other
field unchanged (used to state that `check_result` ignores them). -/
def CraftState.setStats (s : CraftState) (scoreSum maxScore visits : Rat) : CraftState :=
  { s with scoreSum := scoreSum, maxScore := maxScore, visits := visits }

/-- The score branch of `check_result`: `score()` when `quality_target > 0`,
`score_no_quality()` otherwise. -/
def CraftState.scoreFor (s : CraftState) : Rat :=
  if 0 < s.context.qualityTarget then s.score else s.scoreNoQuality

/-- C8: `check_result` classifies exactly per the guard chain — `Finished`
(with `score()` or, when `quality_target = 0`, `score_no_quality()`) iff the
progress target is met; otherwise `DurabilityFailure` iff `durability ≤ 0`;
otherwise `MaxStepsFailure` iff `step ≥ step_max`; otherwise
`InvalidActionFailure` iff no moves are available; otherwise `none` — and it
reads none of the MCTS statistics (`score_sum`, `max_score`, `visits`), so
replacing them leaves the result unchanged.  (As a pure function of `&self`
it mutates nothing, hence is idempotent.) -/
theorem checkResult_classification (s : CraftState) :
    (s.checkResult = some (.Finished s.scoreFor) ↔ s.context.progressTarget ≤ s.progress)
    ∧ (s.progress < s.context.progressTarget →
        (s.checkResult = some .DurabilityFailure ↔ s.durability ≤ 0))
    ∧ (s.progress < s.context.progressTarget → 0 < s.durability →
        (s.checkResult = some .MaxStepsFailure ↔ s.context.stepMax ≤ s.step))
    ∧ (s.progress < s.context.progressTarget → 0 < s.durability → s.step < s.context.stepMax →
        (s.checkResult = some .InvalidActionFailure ↔ s.availableMoves = []))
    ∧ (s.checkResult = none ↔
        (s.progress < s.context.progressTarget ∧ 0 < s.durability ∧ s.step < s.context.stepMax
          ∧ s.availableMoves ≠ []))
    ∧ (∀ scoreSum maxScore visits,
        (s.setStats scoreSum maxScore visits).checkResult = s.checkResult) := by
  have hstats : ∀ scoreSum maxScore visits,
      (s.setStats scoreSum maxScore visits).checkResult = s.checkResult := by
    intro a b c
    simp [CraftState.setStats, CraftState.checkResult, CraftState.score,
      CraftState.scoreNoQuality]
  refine ⟨?_, ?_, ?_, ?_, ?_, hstats⟩ <;>
    simp only [CraftState.checkResult, CraftState.scoreFor, List.isEmpty_iff]
  · split_ifs with h₁ <;> simp [h₁]
  · intro h₁
    split_ifs with h₂ h₃ <;> simp_all <;> omega
  · intro h₁ h₂
    split_ifs with h₃ h₄ h₅ <;> simp_all <;> omega
  · intro h₁ h₂ h₃
    split_ifs with h₄ h₅ h₆ h₇ <;> (simp_all; try omega)
  · split_ifs with h₁ h₂ h₃ h₄ <;> (simp_all; try omega)

/-- Witness for C8 at the scenario initial state: the inner hypotheses are
discharged concretely and the `none` classification follows. -/
theorem checkResult_classification_witness :
    (CraftState.new scenarioContext).checkResult = none :=
  (checkResult_classification (CraftState.new scenarioContext)).2.2.2.2.1.mpr
    (by refine ⟨by decide, by decide, by decide, ?_⟩; decide)

end Crafty

namespace Crafty

/-- Every `strict`-mode arm of the action `match` implies its non-strict
counterpart. -/
theorem allowedByMatch_mono (s : CraftState) (a : Action)
    (h : allowedByMatch s true a = true) : allowedByMatch s false a = true := by
  cases a <;> (simp_all [allowedByMatch]; try omega)

/-- The strict pruning block can only remove actions (or force TrainedEye,
which the non-strict arm also admits under the force condition). -/
theorem keepStrict_imp (s : CraftState) (a : Action)
    (h : keepStrict s a = true) : allowedByMatch s false a = true := by
  unfold keepStrict at h
  by_cases hforce : (s.step == 1 && decide (0 < s.context.qualityTarget)
      && !s.context.isExpert && decide (Action.TrainedEye ∈ s.context.actionPool)) = true
  · rw [if_pos hforce] at h
    have ha : a = Action.TrainedEye := by simpa using h
    subst ha
    simp only [Bool.and_eq_true, decide_eq_true_eq, Bool.not_eq_true'] at hforce
    simp [allowedByMatch, hforce.1.1.1, hforce.1.2]
  · rw [if_neg hforce] at h
    by_cases h₂ : (s.context.recipeJobLevel == s.context.playerJobLevel
        && decide (0 < s.buffs.muscleMemory) && (a.attributes.qualityEfficiency).isSome) = true
    · rw [if_pos h₂] at h; exact absurd h (by simp)
    · rw [if_neg h₂] at h
      by_cases h₃ : (decide (0 < s.buffs.veneration) && (a.attributes.progressEfficiency).isNone
          && (a.attributes.qualityEfficiency).isSome) = true
      · rw [if_pos h₃] at h; exact absurd h (by simp)
      · rw [if_neg h₃] at h
        by_cases h₄ : (s.previousComboAction == some Action.Observe
            && a != Action.AdvancedTouch) = true
        · rw [if_pos h₄] at h; exact absurd h (by simp)
        · rw [if_neg h₄] at h
          split at h
          · split_ifs at h with h₅ h₆ h₇ <;> exact allowedByMatch_mono s a h
          · exact allowedByMatch_mono s a h

/-- The whole `keep` closure: acceptance in strict mode implies acceptance
in non-strict mode (the CP and quality-saturation gates are shared). -/
theorem keepAction_mono (s : CraftState) (a : Action)
    (h : keepAction s true a = true) : keepAction s false a = true := by
  simp only [keepAction, if_true, if_false] at h ⊢
  split_ifs at h ⊢ with hcp hq <;>
    first
      | exact keepStrict_imp s a h
      | contradiction

/-- C5: for every craft state, the `available_moves` produced by
`set_available_moves(strict = true)` is a subset of the set produced on the
same state by `set_available_moves(strict = false)` (on terminal-looking
states both leave the stored set unchanged). -/
theorem strict_moves_subset (s : CraftState) (a : Action)
    (h : a ∈ (s.setAvailableMoves true).availableMoves) :
    a ∈ (s.setAvailableMoves false).availableMoves := by
  unfold CraftState.setAvailableMoves at h ⊢
  split_ifs at h ⊢ with hterm
  · exact h
  · simp only [List.mem_filter] at h ⊢
    exact ⟨h.1, keepAction_mono s a h.2⟩

/-- Witness for C5: BasicTouch is a strict move of the scenario initial
state, hence also a non-strict move. -/
theorem strict_moves_subset_witness :
    Action.BasicTouch ∈
      ((CraftState.mkNew scenarioContext).setAvailableMoves false).availableMoves :=
  strict_moves_subset (CraftState.mkNew scenarioContext) Action.BasicTouch (by decide)

end Crafty

namespace Crafty

/-- Consistency of the two action-tracking fields: whenever
`previous_combo_action` is set, it records the action that produced the
state, so it coincides with the `action` field.  Every state the program
constructs satisfies this (see the reachability invariant). -/
def comboConsistent (s : CraftState) : Prop :=
  ∀ x, s.previousComboAction = some x → s.action = some x

/-- The CP-cost rule in the spec's words (refinement comparison for the
CP-budget filter): 18 when the state's `previous_combo_action` is the
candidate action's combo antecedent (BasicTouch → StandardTouch,
StandardTouch → AdvancedTouch, Observe → AdvancedTouch), otherwise the
candidate's base CP cost. -/
def specComboCpCost (s : CraftState) (a : Action) : Nat :=
  match s.previousComboAction, a with
  | some .BasicTouch, .StandardTouch => 18
  | some .StandardTouch, .AdvancedTouch => 18
  | some .Observe, .AdvancedTouch => 18
  | _, _ => (a.attributes.cpCost).getD 0

/-- A concrete state as produced after an `Observe`: the combo anchor and
the last action are both `Observe`, and 18 ≤ cp = 20 < 46. -/
def comboObserveState : CraftState :=
  ({ CraftState.mkNew scenarioContext with
      step := 3
      cp := 20
      previousComboAction := some Action.Observe
      action := some Action.Observe }).setAvailableMoves false

/-- Counterexample to C2 as stated: in `comboObserveState` the spec's
post-combo CP cost of AdvancedTouch is 18 ≤ cp, so per the claim the
CP-budget rule must not remove it; but `set_available_moves` (both modes)
does remove it, because `calc_cp_cost` is keyed on the state's own
`(previous_combo_action, action)` pair — not on the candidate — and that
pair `(Observe, Observe)` matches no combo, yielding the base cost 46 > 20. -/
theorem cp_budget_post_combo_counterexample :
    comboObserveState.previousComboAction = some Action.Observe
    ∧ 18 ≤ comboObserveState.cp
    ∧ comboObserveState.cp < 46
    ∧ specComboCpCost comboObserveState Action.AdvancedTouch = 18
    ∧ comboObserveState.checkResult = none
    ∧ Action.AdvancedTouch ∈ scenarioContext.actionPool
    ∧ calcCpCost comboObserveState 46 = 46
    ∧ Action.AdvancedTouch ∉ (comboObserveState.setAvailableMoves false).availableMoves
    ∧ Action.AdvancedTouch ∉ (comboObserveState.setAvailableMoves true).availableMoves := by
  decide

theorem comboObserveState_consistent : comboConsistent comboObserveState := by
  intro x hx
  have hp : comboObserveState.previousComboAction = some Action.Observe := by decide
  rw [hp] at hx
  injection hx with hx
  subst hx
  decide

/-- C2 as amended: in `set_available_moves` (both modes) the CP-budget rule
tests `calc_cp_cost(self, base)`, which is keyed on the state's own
`(previous_combo_action, action)` pair; on every combo-consistent state
(all states the program constructs) this equals the candidate's base CP
cost, so the rule removes exactly the actions whose **base** CP cost
exceeds `cp` — in particular, with `previous_combo_action == Observe` and
`18 ≤ cp < 46`, AdvancedTouch **is** removed. -/
theorem cp_budget_uses_base_cost (s : CraftState) (strict : Bool) (a : Action) (baseCost : Nat)
    (hc : comboConsistent s) (hbase : a.attributes.cpCost = some baseCost) :
    calcCpCost s baseCost = baseCost
    ∧ (s.progress < s.context.progressTarget → s.step < s.context.stepMax →
        0 < s.durability → s.cp < baseCost →
        a ∉ (s.setAvailableMoves strict).availableMoves) := by
  have hcalc : calcCpCost s baseCost = baseCost := by
    rcases hp : s.previousComboAction with _ | x
    · rcases ha : s.action with _ | y
      · simp [calcCpCost, hp, ha]
      · cases y <;> simp [calcCpCost, hp, ha]
    · have hax := hc x hp
      cases x <;> simp [calcCpCost, hp, hax]
  refine ⟨hcalc, ?_⟩
  intro h₁ h₂ h₃ h₄
  have hk : keepAction s strict a = false := by
    simp [keepAction, hbase, hcalc, h₄]
  unfold CraftState.setAvailableMoves
  rw [if_neg (by push_neg; exact ⟨h₁, h₂, h₃⟩)]
  simp [List.mem_filter, hk]

/-- Witness for the amended C2, at `comboObserveState` with candidate
AdvancedTouch (base cost 46 > cp = 20). -/
theorem cp_budget_uses_base_cost_witness :
    calcCpCost comboObserveState 46 = 46
    ∧ Action.AdvancedTouch ∉ (comboObserveState.setAvailableMoves false).availableMoves := by
  have h := cp_budget_uses_base_cost comboObserveState false Action.AdvancedTouch 46
    comboObserveState_consistent (by decide)
  exact ⟨h.1, h.2 (by decide) (by decide) (by decide) (by decide)⟩

/-- A concrete state whose `trained_perfection_active` flag is active
(`Some(true)`), as the spec's durability rule addresses. -/
def trainedPerfectionState : CraftState :=
  ({ CraftState.mkNew scenarioContext with
      trainedPerfectionActive := some true }).setAvailableMoves false

/-- C3 (the code evaluated at the failing input): with
`trained_perfection_active == Some(true)` and no waste-not buffs, executing
BasicSynthesis (base durability cost 10) subtracts the full cost 10 — not 0
as the spec requires — because `calc_durability_cost` tests
`previous_combo_action == Some(TrainedPerfection)` (a value the combo
update never produces) instead of the flag; yet `_execute` still consumes
the flag (`Some(true) → Some(false)`), betraying the intended zero-cost
charge. -/
theorem trainedPerfection_durability_charged :
    trainedPerfectionState.trainedPerfectionActive = some true
    ∧ trainedPerfectionState.buffs.wasteNot = 0
    ∧ trainedPerfectionState.buffs.wasteNotII = 0
    ∧ calcDurabilityCost trainedPerfectionState 10 = 10
    ∧ trainedPerfectionState.durability = 80
    ∧ (trainedPerfectionState.execBase Action.BasicSynthesis).durability = 70
    ∧ (trainedPerfectionState.execBase Action.BasicSynthesis).trainedPerfectionActive
        = some false := by
  decide

/-- C1 (the code evaluated at the failing input): `search_oneshot` builds
its tree with `from_context`, rooted at the fresh non-strict initial state
`CraftState::new(context)` — the action history is only prepended to the
extracted solution, and the final state does not depend on it.  The root is
not the strict conversion of the replayed history: replaying `[BasicTouch]`
leaves 557 CP, while the root holds the full 575 CP; and even for an empty
history the root keeps the non-strict move set (it contains MastersMend,
which the strict conversion prunes at full durability). -/
theorem searchOneshot_ignores_history (actionHistory : List Action) :
    (searchOneshot (fun _ _ => (0 : Rat)) (fun _ _ => 0) scenarioContext actionHistory
        { iterations := 0, rngSeed := some 0 } 0).1
      = actionHistory ++ (searchOneshot (fun _ _ => (0 : Rat)) (fun _ _ => 0) scenarioContext []
          { iterations := 0, rngSeed := some 0 } 0).1
    ∧ (searchOneshot (fun _ _ => (0 : Rat)) (fun _ _ => 0) scenarioContext actionHistory
        { iterations := 0, rngSeed := some 0 } 0).2
      = (searchOneshot (fun _ _ => (0 : Rat)) (fun _ _ => 0) scenarioContext []
          { iterations := 0, rngSeed := some 0 } 0).2
    ∧ (Simulator.fromContext scenarioContext { iterations := 0, rngSeed := some 0 } 0).tree
      = [{ state := CraftState.new scenarioContext, parent := none, children := [] }]
    ∧ (CraftState.new scenarioContext).cp = 575
    ∧ ((Simulator.simulate scenarioContext [Action.BasicTouch] 0).1.cloneStrict).cp = 557
    ∧ Action.MastersMend ∈ (CraftState.new scenarioContext).availableMoves
    ∧ Action.MastersMend ∉ ((CraftState.new scenarioContext).cloneStrict).availableMoves := by
  refine ⟨by simp [searchOneshot], by simp [searchOneshot], rfl, by decide, by decide,
    by decide, by decide⟩

end Crafty

namespace Crafty

/-! ### Field accounting for the `_execute` blocks -/

theorem calcCpCost_congr (s t : CraftState) (b : Nat)
    (hp : s.previousComboAction = t.previousComboAction) (ha : s.action = t.action) :
    calcCpCost s b = calcCpCost t b := by
  unfold calcCpCost
  rw [hp, ha]

/-- `calc_cp_cost` returns the base cost except on the three combo pairs. -/
theorem calcCpCost_cases (s : CraftState) (b : Nat) :
    calcCpCost s b = b
    ∨ (calcCpCost s b = 18
        ∧ ((s.previousComboAction = some .BasicTouch ∧ s.action = some .StandardTouch)
          ∨ (s.previousComboAction = some .StandardTouch ∧ s.action = some .AdvancedTouch)
          ∨ (s.previousComboAction = some .Observe ∧ s.action = some .AdvancedTouch))) := by
  unfold calcCpCost
  split
  · exact Or.inr ⟨rfl, by simp_all⟩
  · exact Or.inr ⟨rfl, by simp_all⟩
  · exact Or.inr ⟨rfl, by simp_all⟩
  · exact Or.inl rfl

/-- On a combo-consistent state the discount never fires (the combo pairs
relate two distinct actions, but consistency forces them equal). -/
theorem calcCpCost_comboConsistent (s : CraftState) (b : Nat) (hc : comboConsistent s) :
    calcCpCost s b = b := by
  rcases calcCpCost_cases s b with h | ⟨_, hp⟩
  · exact h
  · exfalso
    rcases hp with ⟨hp, ha⟩ | ⟨hp, ha⟩ | ⟨hp, ha⟩ <;> rw [hc _ hp] at ha <;> cases ha

/-- The CP charge `_execute` subtracts when executing `a` from `s`:
`calc_cp_cost` evaluated on the successor under construction, whose
`action` is `a` and whose combo anchor is still `s`'s. -/
def cpCostCharged (s : CraftState) (a : Action) : Nat :=
  match (a.attributes).cpCost with
  | some baseCost => calcCpCost { s with action := some a } baseCost
  | none => 0

theorem cpCostCharged_congr (s t : CraftState) (a : Action)
    (hp : s.previousComboAction = t.previousComboAction) :
    cpCostCharged s a = cpCostCharged t a := by
  unfold cpCostCharged
  cases (a.attributes).cpCost with
  | none => rfl
  | some b => exact calcCpCost_congr _ _ _ hp rfl

/-- The charged CP cost never exceeds the base cost (the 18-CP discount
only applies to StandardTouch and AdvancedTouch, whose bases are 32/46). -/
theorem cpCostCharged_le (s : CraftState) (a : Action) (b : Nat)
    (hbase : a.attributes.cpCost = some b) : cpCostCharged s a ≤ b := by
  unfold cpCostCharged
  simp only [hbase]
  rcases calcCpCost_cases { s with action := some a } b with h | ⟨h18, hp⟩
  · rw [h]
  · rw [h18]
    rcases hp with ⟨_, ha⟩ | ⟨_, ha⟩ | ⟨_, ha⟩
    · obtain rfl : a = Action.StandardTouch := by simpa using ha
      simp [Action.attributes] at hbase
      omega
    · obtain rfl : a = Action.AdvancedTouch := by simpa using ha
      simp [Action.attributes] at hbase
      omega
    · obtain rfl : a = Action.AdvancedTouch := by simpa using ha
      simp [Action.attributes] at hbase
      omega

/-- Groundwork-style base durability costs are nonnegative in the table. -/
theorem durabilityCost_nonneg (a : Action) (b : Int)
    (h : a.attributes.durabilityCost = some b) : 0 ≤ b := by
  cases a <;> simp [Action.attributes] at h <;> omega

theorem calcDurabilityCost_nonneg (st : CraftState) (b : Int) (hb : 0 ≤ b) :
    0 ≤ calcDurabilityCost st b := by
  unfold calcDurabilityCost
  split_ifs
  · exact le_refl 0
  · exact Int.tdiv_nonneg hb (by omega)
  · exact hb

theorem execInit_fields (s : CraftState) (a : Action) :
    (execInit s a).context = s.context ∧ (execInit s a).cp = s.cp
    ∧ (execInit s a).durability = s.durability
    ∧ (execInit s a).buffs = s.buffs
    ∧ (execInit s a).previousComboAction = s.previousComboAction
    ∧ (execInit s a).action = some a
    ∧ (execInit s a).availableMoves = []
    ∧ (execInit s a).visits = 0 :=
  ⟨rfl, rfl, rfl, rfl, rfl, rfl, rfl, rfl⟩

theorem applyProgress_fields (a : Action) (st : CraftState) :
    (applyProgress a st).context = st.context ∧ (applyProgress a st).cp = st.cp
    ∧ (applyProgress a st).durability = st.durability
    ∧ (applyProgress a st).previousComboAction = st.previousComboAction
    ∧ (applyProgress a st).action = st.action
    ∧ (applyProgress a st).availableMoves = st.availableMoves
    ∧ (applyProgress a st).visits = st.visits
    ∧ (applyProgress a st).buffs.innerQuiet = st.buffs.innerQuiet
    ∧ (applyProgress a st).buffs.wasteNot = st.buffs.wasteNot
    ∧ (applyProgress a st).buffs.wasteNotII = st.buffs.wasteNotII := by
  simp only [applyProgress]
  repeat' split
  all_goals exact ⟨rfl, rfl, rfl, rfl, rfl, rfl, rfl, rfl, rfl, rfl⟩

theorem applyQuality_fields (a : Action) (st : CraftState) :
    (applyQuality a st).context = st.context ∧ (applyQuality a st).cp = st.cp
    ∧ (applyQuality a st).durability = st.durability
    ∧ (applyQuality a st).previousComboAction = st.previousComboAction
    ∧ (applyQuality a st).action = st.action
    ∧ (applyQuality a st).availableMoves = st.availableMoves
    ∧ (applyQuality a st).visits = st.visits
    ∧ (applyQuality a st).buffs.wasteNot = st.buffs.wasteNot
    ∧ (applyQuality a st).buffs.wasteNotII = st.buffs.wasteNotII := by
  simp only [applyQuality]
  repeat' split
  all_goals exact ⟨rfl, rfl, rfl, rfl, rfl, rfl, rfl, rfl, rfl⟩

theorem applyQuality_iq_le (a : Action) (st : CraftState)
    (h : st.buffs.innerQuiet ≤ 10) : (applyQuality a st).buffs.innerQuiet ≤ 10 := by
  simp only [applyQuality]
  repeat' split
  all_goals try dsimp only
  all_goals omega

theorem applyDurability_fields (a : Action) (st : CraftState) :
    (applyDurability a st).context = st.context ∧ (applyDurability a st).cp = st.cp
    ∧ (applyDurability a st).previousComboAction = st.previousComboAction
    ∧ (applyDurability a st).action = st.action
    ∧ (applyDurability a st).availableMoves = st.availableMoves
    ∧ (applyDurability a st).visits = st.visits
    ∧ (applyDurability a st).buffs = st.buffs := by
  simp only [applyDurability]
  repeat' split
  all_goals exact ⟨rfl, rfl, rfl, rfl, rfl, rfl, rfl⟩

theorem applyDurability_dur_le (a : Action) (st : CraftState) (D : Int)
    (h : st.durability ≤ D) : (applyDurability a st).durability ≤ D := by
  simp only [applyDurability]
  rcases hb : a.attributes.durabilityCost with _ | b
  · exact h
  · have hb0 : 0 ≤ b := durabilityCost_nonneg a b hb
    have hc := calcDurabilityCost_nonneg st b hb0
    simp only [hb]
    split <;> simp <;> omega

theorem applyManipulation_fields (st : CraftState) :
    (applyManipulation st).context = st.context ∧ (applyManipulation st).cp = st.cp
    ∧ (applyManipulation st).previousComboAction = st.previousComboAction
    ∧ (applyManipulation st).action = st.action
    ∧ (applyManipulation st).availableMoves = st.availableMoves
    ∧ (applyManipulation st).visits = st.visits
    ∧ (applyManipulation st).buffs = st.buffs := by
  simp only [applyManipulation]
  split <;> exact ⟨rfl, rfl, rfl, rfl, rfl, rfl, rfl⟩

theorem applyManipulation_dur_le (st : CraftState)
    (h : st.durability ≤ st.context.durabilityMax) :
    (applyManipulation st).durability ≤ st.context.durabilityMax := by
  simp only [applyManipulation]
  split
  · exact min_le_right _ _
  · exact h

theorem applyCp_fields (a : Action) (st : CraftState) :
    (applyCp a st).context = st.context
    ∧ (applyCp a st).durability = st.durability
    ∧ (applyCp a st).previousComboAction = st.previousComboAction
    ∧ (applyCp a st).action = st.action
    ∧ (applyCp a st).availableMoves = st.availableMoves
    ∧ (applyCp a st).visits = st.visits
    ∧ (applyCp a st).buffs = st.buffs := by
  simp only [applyCp]
  split <;> exact ⟨rfl, rfl, rfl, rfl, rfl, rfl, rfl⟩

theorem applyCp_cp (a : Action) (st : CraftState) (ha : st.action = some a) :
    (applyCp a st).cp = st.cp - cpCostCharged st a := by
  simp only [applyCp, cpCostCharged]
  cases h : (a.attributes).cpCost with
  | none => simp [h]
  | some b =>
    simp only [h]
    congr 1
    exact calcCpCost_congr _ _ _ rfl (by rw [ha])

theorem updateCombo_fields (a : Action) (st : CraftState) :
    (updateCombo a st).context = st.context ∧ (updateCombo a st).cp = st.cp
    ∧ (updateCombo a st).durability = st.durability
    ∧ (updateCombo a st).action = st.action
    ∧ (updateCombo a st).availableMoves = st.availableMoves
    ∧ (updateCombo a st).visits = st.visits
    ∧ (updateCombo a st).buffs = st.buffs :=
  ⟨rfl, rfl, rfl, rfl, rfl, rfl, rfl⟩

theorem updateCombo_prev (a : Action) (st : CraftState) :
    (updateCombo a st).previousComboAction = none
    ∨ (updateCombo a st).previousComboAction = some a := by
  simp only [updateCombo]
  repeat' split
  all_goals simp

theorem applyDecrement_fields (a : Action) (st : CraftState) :
    (applyDecrement a st).context = st.context ∧ (applyDecrement a st).cp = st.cp
    ∧ (applyDecrement a st).durability = st.durability
    ∧ (applyDecrement a st).previousComboAction = st.previousComboAction
    ∧ (applyDecrement a st).action = st.action
    ∧ (applyDecrement a st).availableMoves = st.availableMoves
    ∧ (applyDecrement a st).visits = st.visits
    ∧ (applyDecrement a st).buffs.innerQuiet = st.buffs.innerQuiet := by
  simp only [applyDecrement, Buffs.decrementTimers]
  split <;> exact ⟨rfl, rfl, rfl, rfl, rfl, rfl, rfl, rfl⟩

theorem applyDecrement_wasteNot (a : Action) (st : CraftState)
    (h : st.buffs.wasteNot = 0 ∨ st.buffs.wasteNotII = 0) :
    (applyDecrement a st).buffs.wasteNot = 0 ∨ (applyDecrement a st).buffs.wasteNotII = 0 := by
  simp only [applyDecrement, Buffs.decrementTimers]
  split
  · rcases h with h | h
    · exact Or.inl (by simp [h])
    · exact Or.inr (by simp [h])
  · exact h

theorem applyEffect_fields (a : Action) (st : CraftState) :
    (applyEffect a st).context = st.context ∧ (applyEffect a st).cp = st.cp
    ∧ (applyEffect a st).previousComboAction = st.previousComboAction
    ∧ (applyEffect a st).action = st.action
    ∧ (applyEffect a st).availableMoves = st.availableMoves
    ∧ (applyEffect a st).visits = st.visits
    ∧ (applyEffect a st).buffs.innerQuiet = st.buffs.innerQuiet := by
  cases a <;>
    exact ⟨rfl, rfl, rfl, rfl, rfl, rfl, rfl⟩

theorem applyEffect_dur_le (a : Action) (st : CraftState)
    (h : st.durability ≤ st.context.durabilityMax) :
    (applyEffect a st).durability ≤ st.context.durabilityMax := by
  cases a <;> first
    | exact h
    | exact min_le_right _ _
    | exact le_refl _

theorem applyEffect_wasteNot (a : Action) (st : CraftState)
    (h : st.buffs.wasteNot = 0 ∨ st.buffs.wasteNotII = 0) :
    (applyEffect a st).buffs.wasteNot = 0 ∨ (applyEffect a st).buffs.wasteNotII = 0 := by
  cases a <;> first
    | exact h
    | exact Or.inl rfl
    | exact Or.inr rfl

end Crafty

namespace Crafty

/-! ### Composite facts about `_execute` -/

theorem execBase_context (s : CraftState) (a : Action) :
    (s.execBase a).context = s.context := by
  unfold CraftState.execBase
  rw [(applyEffect_fields _ _).1, (applyDecrement_fields _ _).1, (updateCombo_fields _ _).1,
    (applyCp_fields _ _).1, (applyManipulation_fields _).1, (applyDurability_fields _ _).1,
    (applyQuality_fields _ _).1, (applyProgress_fields _ _).1, (execInit_fields _ _).1]

theorem execBase_action (s : CraftState) (a : Action) :
    (s.execBase a).action = some a := by
  unfold CraftState.execBase
  rw [(applyEffect_fields _ _).2.2.2.1, (applyDecrement_fields _ _).2.2.2.2.1,
    (updateCombo_fields _ _).2.2.2.1, (applyCp_fields _ _).2.2.2.1,
    (applyManipulation_fields _).2.2.2.1, (applyDurability_fields _ _).2.2.2.1,
    (applyQuality_fields _ _).2.2.2.2.1, (applyProgress_fields _ _).2.2.2.2.1,
    (execInit_fields _ _).2.2.2.2.2.1]

theorem execBase_moves (s : CraftState) (a : Action) :
    (s.execBase a).availableMoves = [] := by
  unfold CraftState.execBase
  rw [(applyEffect_fields _ _).2.2.2.2.1, (applyDecrement_fields _ _).2.2.2.2.2.1,
    (updateCombo_fields _ _).2.2.2.2.1, (applyCp_fields _ _).2.2.2.2.1,
    (applyManipulation_fields _).2.2.2.2.1, (applyDurability_fields _ _).2.2.2.2.1,
    (applyQuality_fields _ _).2.2.2.2.2.1, (applyProgress_fields _ _).2.2.2.2.2.1,
    (execInit_fields _ _).2.2.2.2.2.2.1]

theorem execBase_visits (s : CraftState) (a : Action) :
    (s.execBase a).visits = 0 := by
  unfold CraftState.execBase
  rw [(applyEffect_fields _ _).2.2.2.2.2.1, (applyDecrement_fields _ _).2.2.2.2.2.2.1,
    (updateCombo_fields _ _).2.2.2.2.2.1, (applyCp_fields _ _).2.2.2.2.2.1,
    (applyManipulation_fields _).2.2.2.2.2.1, (applyDurability_fields _ _).2.2.2.2.2.1,
    (applyQuality_fields _ _).2.2.2.2.2.2.1, (applyProgress_fields _ _).2.2.2.2.2.2.1,
    (execInit_fields _ _).2.2.2.2.2.2.2]

theorem execBase_prev (s : CraftState) (a : Action) :
    (s.execBase a).previousComboAction = none
    ∨ (s.execBase a).previousComboAction = some a := by
  unfold CraftState.execBase
  rw [(applyEffect_fields _ _).2.2.1, (applyDecrement_fields _ _).2.2.2.1]
  exact updateCombo_prev a _

/-- Every state `_execute` produces is combo-consistent. -/
theorem execBase_comboConsistent (s : CraftState) (a : Action) :
    comboConsistent (s.execBase a) := by
  intro x hx
  rcases execBase_prev s a with h | h
  · rw [h] at hx; cases hx
  · rw [h] at hx
    injection hx with hx
    subst hx
    exact execBase_action s a

theorem execBase_cp (s : CraftState) (a : Action) :
    (s.execBase a).cp = s.cp - cpCostCharged s a := by
  unfold CraftState.execBase
  rw [(applyEffect_fields _ _).2.1, (applyDecrement_fields _ _).2.1, (updateCombo_fields _ _).2.1]
  have ha :
      (applyManipulation (applyDurability a (applyQuality a (applyProgress a
        (execInit s a))))).action = some a := by
    rw [(applyManipulation_fields _).2.2.2.1, (applyDurability_fields _ _).2.2.2.1,
      (applyQuality_fields _ _).2.2.2.2.1, (applyProgress_fields _ _).2.2.2.2.1,
      (execInit_fields _ _).2.2.2.2.2.1]
  rw [applyCp_cp a _ ha]
  have hcp :
      (applyManipulation (applyDurability a (applyQuality a (applyProgress a
        (execInit s a))))).cp = s.cp := by
    rw [(applyManipulation_fields _).2.1, (applyDurability_fields _ _).2.1,
      (applyQuality_fields _ _).2.1, (applyProgress_fields _ _).2.1, (execInit_fields _ _).2.1]
  have hprev :
      (applyManipulation (applyDurability a (applyQuality a (applyProgress a
        (execInit s a))))).previousComboAction = s.previousComboAction := by
    rw [(applyManipulation_fields _).2.2.1, (applyDurability_fields _ _).2.2.1,
      (applyQuality_fields _ _).2.2.2.1, (applyProgress_fields _ _).2.2.2.1,
      (execInit_fields _ _).2.2.2.2.1]
  rw [hcp, cpCostCharged_congr _ s a hprev]

theorem execBase_dur_le (s : CraftState) (a : Action)
    (h : s.durability ≤ s.context.durabilityMax) :
    (s.execBase a).durability ≤ s.context.durabilityMax := by
  unfold CraftState.execBase
  generalize hq : applyQuality a (applyProgress a (execInit s a)) = t2
  have hdur2 : t2.durability ≤ s.context.durabilityMax := by
    rw [← hq, (applyQuality_fields _ _).2.2.1, (applyProgress_fields _ _).2.2.1,
      (execInit_fields _ _).2.2.1]
    exact h
  have hctx2 : t2.context = s.context := by
    rw [← hq, (applyQuality_fields _ _).1, (applyProgress_fields _ _).1, (execInit_fields _ _).1]
  generalize hd : applyDurability a t2 = t3
  have hdur3 : t3.durability ≤ s.context.durabilityMax := by
    rw [← hd]; exact applyDurability_dur_le a t2 _ hdur2
  have hctx3 : t3.context = s.context := by rw [← hd, (applyDurability_fields _ _).1, hctx2]
  generalize hm : applyManipulation t3 = t4
  have hdur4 : t4.durability ≤ s.context.durabilityMax := by
    rw [← hm, ← hctx3]
    exact applyManipulation_dur_le t3 (by rw [hctx3]; exact hdur3)
  have hctx4 : t4.context = s.context := by rw [← hm, (applyManipulation_fields _).1, hctx3]
  generalize hc : applyDecrement a (updateCombo a (applyCp a t4)) = t5
  have hdur5 : t5.durability ≤ s.context.durabilityMax := by
    rw [← hc, (applyDecrement_fields _ _).2.2.1, (updateCombo_fields _ _).2.2.1,
      (applyCp_fields _ _).2.1]
    exact hdur4
  have hctx5 : t5.context = s.context := by
    rw [← hc, (applyDecrement_fields _ _).1, (updateCombo_fields _ _).1,
      (applyCp_fields _ _).1, hctx4]
  rw [← hctx5]
  exact applyEffect_dur_le a t5 (by rw [hctx5]; exact hdur5)

theorem execBase_iq_le (s : CraftState) (a : Action)
    (h : s.buffs.innerQuiet ≤ 10) : (s.execBase a).buffs.innerQuiet ≤ 10 := by
  unfold CraftState.execBase
  rw [(applyEffect_fields _ _).2.2.2.2.2.2, (applyDecrement_fields _ _).2.2.2.2.2.2.2,
    (updateCombo_fields _ _).2.2.2.2.2.2, (applyCp_fields _ _).2.2.2.2.2.2,
    (applyManipulation_fields _).2.2.2.2.2.2, (applyDurability_fields _ _).2.2.2.2.2.2]
  apply applyQuality_iq_le
  rw [(applyProgress_fields _ _).2.2.2.2.2.2.2.1,
    (show (execInit s a).buffs = s.buffs from (execInit_fields s a).2.2.2.1)]
  exact h

theorem execBase_wasteNot (s : CraftState) (a : Action)
    (h : s.buffs.wasteNot = 0 ∨ s.buffs.wasteNotII = 0) :
    (s.execBase a).buffs.wasteNot = 0 ∨ (s.execBase a).buffs.wasteNotII = 0 := by
  unfold CraftState.execBase
  apply applyEffect_wasteNot
  apply applyDecrement_wasteNot
  rw [(updateCombo_fields _ _).2.2.2.2.2.2, (applyCp_fields _ _).2.2.2.2.2.2,
    (applyManipulation_fields _).2.2.2.2.2.2, (applyDurability_fields _ _).2.2.2.2.2.2,
    (applyQuality_fields _ _).2.2.2.2.2.2.2.1, (applyQuality_fields _ _).2.2.2.2.2.2.2.2,
    (applyProgress_fields _ _).2.2.2.2.2.2.2.2.1, (applyProgress_fields _ _).2.2.2.2.2.2.2.2.2,
    (show (execInit s a).buffs = s.buffs from (execInit_fields s a).2.2.2.1)]
  exact h

/-! ### `set_available_moves` facts and the reachability invariant -/

theorem setAvailableMoves_fields (t : CraftState) (b : Bool) :
    (t.setAvailableMoves b).context = t.context
    ∧ (t.setAvailableMoves b).cp = t.cp
    ∧ (t.setAvailableMoves b).durability = t.durability
    ∧ (t.setAvailableMoves b).buffs = t.buffs
    ∧ (t.setAvailableMoves b).previousComboAction = t.previousComboAction
    ∧ (t.setAvailableMoves b).action = t.action
    ∧ (t.setAvailableMoves b).visits = t.visits := by
  unfold CraftState.setAvailableMoves
  split_ifs <;> exact ⟨rfl, rfl, rfl, rfl, rfl, rfl, rfl⟩

theorem mem_setAvailableMoves {t : CraftState} {b : Bool} {x : Action}
    (h : x ∈ (t.setAvailableMoves b).availableMoves) :
    x ∈ t.availableMoves ∨ (x ∈ t.context.actionPool ∧ keepAction t b x = true) := by
  unfold CraftState.setAvailableMoves at h
  split_ifs at h with hterm
  · exact Or.inl h
  · right
    simpa [List.mem_filter] using h

/-- Passing the CP-budget gate of the `keep` closure bounds the filter's
`calc_cp_cost` by the current CP. -/
theorem keepAction_cp_bound (t : CraftState) (b : Bool) (x : Action) (base : Nat)
    (hk : keepAction t b x = true) (hbase : x.attributes.cpCost = some base) :
    calcCpCost t base ≤ t.cp := by
  simp only [keepAction, hbase] at hk
  by_contra hlt
  push_neg at hlt
  simp [hlt] at hk

/-- The inductive invariant of reachable states (the proved content of
claims C4 and C10). -/
def Inv (ctx : CraftContext) (s : CraftState) : Prop :=
  s.context = ctx
  ∧ s.cp ≤ ctx.cpMax
  ∧ s.durability ≤ ctx.durabilityMax
  ∧ s.buffs.innerQuiet ≤ 10
  ∧ (s.buffs.wasteNot = 0 ∨ s.buffs.wasteNotII = 0)
  ∧ comboConsistent s
  ∧ (∀ a ∈ s.availableMoves, a ∈ ctx.actionPool)
  ∧ (∀ a ∈ s.availableMoves, cpCostCharged s a ≤ s.cp)

/-- Repopulating the moves preserves the invariant (with empty prior
moves, covering both the initial states and every `_execute` successor). -/
theorem setMoves_inv (ctx : CraftContext) (t : CraftState) (b : Bool)
    (hctx : t.context = ctx) (hcp : t.cp ≤ ctx.cpMax) (hdur : t.durability ≤ ctx.durabilityMax)
    (hiq : t.buffs.innerQuiet ≤ 10) (hwn : t.buffs.wasteNot = 0 ∨ t.buffs.wasteNotII = 0)
    (hcc : comboConsistent t) (hmoves : t.availableMoves = []) :
    Inv ctx (t.setAvailableMoves b) := by
  obtain ⟨f1, f2, f3, f4, f5, f6, f7⟩ := setAvailableMoves_fields t b
  have hmem : ∀ x ∈ (t.setAvailableMoves b).availableMoves,
      x ∈ t.context.actionPool ∧ keepAction t b x = true := by
    intro x hx
    rcases mem_setAvailableMoves hx with h | h
    · rw [hmoves] at h; cases h
    · exact h
  refine ⟨by rw [f1, hctx], by rw [f2]; exact hcp, by rw [f3]; exact hdur,
    by rw [f4]; exact hiq, by rw [f4]; exact hwn, ?_, ?_, ?_⟩
  · intro x hx
    rw [f5] at hx
    rw [f6]
    exact hcc x hx
  · intro x hx
    rw [← hctx]
    exact (hmem x hx).1
  · intro x hx
    rw [f2, cpCostCharged_congr _ t x f5]
    rcases hbase : x.attributes.cpCost with _ | base
    · unfold cpCostCharged
      rw [hbase]
      exact Nat.zero_le _
    · calc cpCostCharged t x ≤ base := cpCostCharged_le t x base hbase
        _ = calcCpCost t base := (calcCpCost_comboConsistent t base hcc).symm
        _ ≤ t.cp := keepAction_cp_bound t b x base (hmem x hx).2 hbase

/-- Preservation of the invariant by one step of execution. -/
theorem inv_step (ctx : CraftContext) (s : CraftState) (a : Action) (b : Bool)
    (hInv : Inv ctx s) :
    Inv ctx ((s.execBase a).setAvailableMoves b) := by
  obtain ⟨hctx, hcp, hdur, hiq, hwn, _, _, _⟩ := hInv
  apply setMoves_inv
  · rw [execBase_context, hctx]
  · rw [execBase_cp]
    exact le_trans (Nat.sub_le _ _) hcp
  · rw [← hctx]
    exact execBase_dur_le s a (by rw [hctx]; exact hdur)
  · exact execBase_iq_le s a hiq
  · exact execBase_wasteNot s a hwn
  · exact execBase_comboConsistent s a
  · exact execBase_moves s a

/-- Reachability from an initial `CraftState` (either move mode), by
executing actions drawn from `available_moves` with either executor. -/
inductive Reachable (ctx : CraftContext) : CraftState → Prop
  | newInit : Reachable ctx (CraftState.new ctx)
  | newStrictInit : Reachable ctx (CraftState.newStrict ctx)
  | step (s : CraftState) (a : Action) (strict : Bool) :
      Reachable ctx s → a ∈ s.availableMoves →
      Reachable ctx ((s.execBase a).setAvailableMoves strict)

theorem mkNew_inv (ctx : CraftContext) (b : Bool) :
    Inv ctx ((CraftState.mkNew ctx).setAvailableMoves b) :=
  setMoves_inv ctx _ b rfl (le_refl _) (le_refl _) (Nat.zero_le 10) (Or.inl rfl)
    (fun _ hx => absurd hx (by simp [CraftState.mkNew])) rfl

/-- All reachable states satisfy the invariant. -/
theorem reachable_inv (ctx : CraftContext) (s : CraftState) (h : Reachable ctx s) :
    Inv ctx s := by
  induction h with
  | newInit => exact mkNew_inv ctx false
  | newStrictInit => exact mkNew_inv ctx true
  | step s a b _ _ ih => exact inv_step ctx s a b ih

/-- C4: every state reachable from an initial `CraftState` by executing
available actions satisfies, when non-terminal: `0 ≤ progress <
progress_target`, `0 < durability ≤ durability_max`, `0 ≤ cp ≤ cp_max`,
`step < step_max`, `inner_quiet ≤ 10`, and `available_moves ⊆
context.action_pool`; moreover the CP charge of every available action is
at most the current CP, so the `u32` CP subtraction in `_execute` never
underflows (progress and quality are only ever increased, so they cannot
underflow either; `0 ≤ progress` and `0 ≤ cp` hold by the `Nat` model). -/
theorem reachable_nonterminal_bounds (ctx : CraftContext) (s : CraftState)
    (h : Reachable ctx s) (hnt : s.checkResult = none) :
    s.progress < ctx.progressTarget
    ∧ 0 < s.durability ∧ s.durability ≤ ctx.durabilityMax
    ∧ s.cp ≤ ctx.cpMax
    ∧ s.step < ctx.stepMax
    ∧ s.buffs.innerQuiet ≤ 10
    ∧ (∀ a ∈ s.availableMoves, a ∈ ctx.actionPool)
    ∧ (∀ a ∈ s.availableMoves, cpCostCharged s a ≤ s.cp) := by
  obtain ⟨hctx, hcp, hdur, hiq, _, _, hpool, hsafe⟩ := reachable_inv ctx s h
  have hterm : s.progress < s.context.progressTarget ∧ 0 < s.durability
      ∧ s.step < s.context.stepMax := by
    unfold CraftState.checkResult at hnt
    split_ifs at hnt
    refine ⟨by omega, by omega, by omega⟩
  rw [hctx] at hterm
  exact ⟨hterm.1, hterm.2.1, hdur, hcp, hterm.2.2, hiq, hpool, hsafe⟩

/-- Witness for C4 at the scenario initial state. -/
theorem reachable_nonterminal_bounds_witness :
    0 < (CraftState.new scenarioContext).durability
    ∧ (CraftState.new scenarioContext).cp ≤ scenarioContext.cpMax
    ∧ (CraftState.new scenarioContext).step < scenarioContext.stepMax := by
  have h := reachable_nonterminal_bounds scenarioContext (CraftState.new scenarioContext)
    Reachable.newInit (by decide)
  exact ⟨h.2.1, h.2.2.2.1, h.2.2.2.2.1⟩

/-- C10: in every reachable state at most one of `waste_not` and
`waste_not_ii` is nonzero, and the two effect closures set `(4, 0)` and
`(0, 8)` respectively — no other operation raises either counter (the
timer decrement only lowers them). -/
theorem reachable_wasteNot_exclusive (ctx : CraftContext) (s : CraftState)
    (h : Reachable ctx s) :
    (s.buffs.wasteNot = 0 ∨ s.buffs.wasteNotII = 0)
    ∧ (∀ t : CraftState,
        (applyEffect .WasteNot t).buffs.wasteNot = 4
        ∧ (applyEffect .WasteNot t).buffs.wasteNotII = 0
        ∧ (applyEffect .WasteNotII t).buffs.wasteNot = 0
        ∧ (applyEffect .WasteNotII t).buffs.wasteNotII = 8) :=
  ⟨(reachable_inv ctx s h).2.2.2.2.1, fun _ => ⟨rfl, rfl, rfl, rfl⟩⟩

/-- Witness for C10 at a reachable state that actually carries a waste-not
buff: the initial state after executing WasteNot. -/
theorem reachable_wasteNot_exclusive_witness :
    (((CraftState.new scenarioContext).execBase Action.WasteNot).setAvailableMoves
        false).buffs.wasteNot = 0
    ∨ (((CraftState.new scenarioContext).execBase Action.WasteNot).setAvailableMoves
        false).buffs.wasteNotII = 0 :=
  (reachable_wasteNot_exclusive scenarioContext _
    (Reachable.step _ Action.WasteNot false Reachable.newInit (by decide))).1

end Crafty

namespace Crafty

/-! ### Arena well-formedness and the visit-count invariant (claim C7) -/

theorem treeGet_of_getElem {t : List SimNode} {i : Nat} {nd : SimNode}
    (h : t[i]? = some nd) : treeGet t i = nd := by
  unfold treeGet
  rw [List.getD_eq_getElem?_getD, h]
  rfl

theorem treeGet_getElem {t : List SimNode} {i : Nat} (h : i < t.length) :
    t[i]? = some (treeGet t i) := by
  rw [List.getElem?_eq_getElem h]
  unfold treeGet
  rw [List.getD_eq_getElem?_getD, List.getElem?_eq_getElem h]
  rfl

/-- Arena well-formedness: parent indices decrease (children are appended
after their parents), only the root lacks a parent, and child indices are
in range and above their parent. -/
def TreeWF (t : List SimNode) : Prop :=
  (∀ (i : Nat) (nd : SimNode), t[i]? = some nd → ∀ p, nd.parent = some p → p < i)
  ∧ (∀ (i : Nat) (nd : SimNode), t[i]? = some nd → nd.parent = none → i = 0)
  ∧ (∀ (i : Nat) (nd : SimNode), t[i]? = some nd → ∀ c ∈ nd.children, i < c ∧ c < t.length)

/-- All visit counters are nonnegative (they start at 0 and only receive
`+1.0` increments). -/
def VisitsNonneg (t : List SimNode) : Prop :=
  ∀ (i : Nat) (nd : SimNode), t[i]? = some nd → 0 ≤ nd.state.visits

/-- The per-iteration invariant behind C7: every node either has a positive
visit count, or is an unexpanded leaf that no node lists as a child (only
the root before the first backpropagation). -/
def VisitOK (t : List SimNode) : Prop :=
  ∀ (i : Nat) (nd : SimNode), t[i]? = some nd →
    0 < nd.state.visits
    ∨ (nd.children = [] ∧ ∀ (j : Nat) (pnd : SimNode), t[j]? = some pnd → i ∉ pnd.children)

/-- `OnChain t i j`: `j` lies on the parent chain starting at `i`
(inclusive); exactly the nodes `backpropagate` visits when walking from `i`
to the root. -/
inductive OnChain (t : List SimNode) : Nat → Nat → Prop
  | refl (i : Nat) : OnChain t i i
  | tail {i j k : Nat} : OnChain t i j → (treeGet t j).parent = some k → OnChain t i k

theorem onChain_inv {t : List SimNode} {i k : Nat} (h : OnChain t i k) :
    i = k ∨ ∃ p, (treeGet t i).parent = some p ∧ OnChain t p k := by
  induction h with
  | refl => exact Or.inl rfl
  | tail hc hp ih =>
    rcases ih with rfl | ⟨p, hp', hc'⟩
    · exact Or.inr ⟨_, hp, OnChain.refl _⟩
    · exact Or.inr ⟨p, hp', OnChain.tail hc' hp⟩

/-- Chain membership only depends on the parent structure. -/
theorem onChain_congr {t t' : List SimNode} {i k : Nat}
    (hshape : ∀ j, (treeGet t' j).parent = (treeGet t j).parent)
    (h : OnChain t i k) : OnChain t' i k := by
  induction h with
  | refl => exact OnChain.refl _
  | tail _ hp ih => exact OnChain.tail ih ((hshape _).trans hp)

theorem length_modifyState (t : List SimNode) (i : Nat) (f : CraftState → CraftState) :
    (modifyState t i f).length = t.length :=
  List.length_set t i _

theorem getElem_modifyState_ne (t : List SimNode) {i j : Nat} (f : CraftState → CraftState)
    (h : i ≠ j) : (modifyState t i f)[j]? = t[j]? :=
  List.getElem?_set_ne h

theorem getElem_modifyState_self {t : List SimNode} {i : Nat} {nd : SimNode}
    (f : CraftState → CraftState) (h : t[i]? = some nd) :
    (modifyState t i f)[i]? = some { nd with state := f nd.state } := by
  unfold modifyState
  rw [treeGet_of_getElem h]
  exact List.getElem?_set_self (by
    rcases List.getElem?_eq_some_iff.mp h with ⟨hlt, _⟩
    exact hlt)

/-- The shape (parents and children) is untouched by `modifyState`. -/
theorem modifyState_parent (t : List SimNode) (i : Nat) (f : CraftState → CraftState)
    (j : Nat) : (treeGet (modifyState t i f) j).parent = (treeGet t j).parent := by
  rcases eq_or_ne i j with rfl | hne
  · by_cases hlt : i < t.length
    · rw [treeGet_of_getElem (getElem_modifyState_self f (treeGet_getElem hlt))]
    · unfold modifyState treeGet
      rw [List.set_eq_of_length_le (by omega)]
  · unfold treeGet
    rw [List.getD_eq_getElem?_getD, List.getD_eq_getElem?_getD, getElem_modifyState_ne t f hne]

theorem modifyState_children (t : List SimNode) (i : Nat) (f : CraftState → CraftState)
    (j : Nat) : (treeGet (modifyState t i f) j).children = (treeGet t j).children := by
  rcases eq_or_ne i j with rfl | hne
  · by_cases hlt : i < t.length
    · rw [treeGet_of_getElem (getElem_modifyState_self f (treeGet_getElem hlt))]
    · unfold modifyState treeGet
      rw [List.set_eq_of_length_le (by omega)]
  · unfold treeGet
    rw [List.getD_eq_getElem?_getD, List.getD_eq_getElem?_getD, getElem_modifyState_ne t f hne]

end Crafty

namespace Crafty

theorem parent_some_lt {t : List SimNode} (hWF : TreeWF t) {j k : Nat}
    (h : (treeGet t j).parent = some k) : k < j := by
  by_cases hlt : j < t.length
  · exact hWF.1 j (treeGet t j) (treeGet_getElem hlt) k h
  · unfold treeGet at h
    rw [List.getD_eq_getElem?_getD, List.getElem?_eq_none (by omega)] at h
    cases h

theorem onChain_le {t : List SimNode} (hWF : TreeWF t) {i j : Nat}
    (h : OnChain t i j) : j ≤ i := by
  induction h with
  | refl => exact le_refl _
  | tail _ hp ih => exact le_trans (le_of_lt (parent_some_lt hWF hp)) ih

/-- What one `expand`/`store` phase guarantees: the tree only grows, old
nodes keep their parent and visits, children additions point at new nodes,
any node whose child list changed is on the final backpropagation chain,
and all new nodes lie on that chain with fresh nonnegative visit counts. -/
def ExtendSpec (t t' : List SimNode) (e : Nat) : Prop :=
  t.length ≤ t'.length
  ∧ e < t'.length
  ∧ TreeWF t'
  ∧ (∀ (j : Nat) (nd : SimNode), t[j]? = some nd → ∃ nd', t'[j]? = some nd'
      ∧ nd'.parent = nd.parent
      ∧ nd'.state.visits = nd.state.visits
      ∧ (∀ c ∈ nd'.children, c ∈ nd.children ∨ t.length ≤ c)
      ∧ (nd'.children ≠ nd.children → OnChain t' e j))
  ∧ (∀ (j : Nat) (nd' : SimNode), t'[j]? = some nd' → t.length ≤ j →
      (∀ c ∈ nd'.children, t.length ≤ c) ∧ 0 ≤ nd'.state.visits ∧ OnChain t' e j)

theorem extendSpec_refl {t : List SimNode} {e : Nat} (hWF : TreeWF t)
    (he : e < t.length) : ExtendSpec t t e := by
  refine ⟨le_refl _, he, hWF, ?_, ?_⟩
  · intro j nd h
    exact ⟨nd, h, rfl, rfl, fun c hc => Or.inl hc, fun hne => absurd rfl hne⟩
  · intro j nd' h hj
    rcases List.getElem?_eq_some_iff.mp h with ⟨hlt, _⟩
    omega

theorem insertNode_snd (sim : Sim) (p : Nat) (st : CraftState) :
    (sim.insertNode p st).2 = sim.tree.length := rfl

theorem insertNode_tree (sim : Sim) (p : Nat) (st : CraftState) :
    (sim.insertNode p st).1.tree
      = sim.tree.set p
          { treeGet sim.tree p with children := (treeGet sim.tree p).children ++ [sim.tree.length] }
          ++ [{ state := st, parent := some p, children := [] }] := rfl

theorem insertNode_length (sim : Sim) (p : Nat) (st : CraftState) :
    (sim.insertNode p st).1.tree.length = sim.tree.length + 1 := by
  rw [insertNode_tree, List.length_append, List.length_set]
  rfl

theorem insertNode_getElem_new (sim : Sim) (p : Nat) (st : CraftState) :
    (sim.insertNode p st).1.tree[sim.tree.length]?
      = some { state := st, parent := some p, children := [] } := by
  rw [insertNode_tree, List.getElem?_append_right (by rw [List.length_set])]
  simp [List.length_set]

theorem insertNode_getElem_old (sim : Sim) (p : Nat) (st : CraftState)
    {j : Nat} {nd : SimNode} (hj : sim.tree[j]? = some nd) :
    (sim.insertNode p st).1.tree[j]?
      = some (if j = p then
          { nd with children := nd.children ++ [sim.tree.length] } else nd) := by
  rcases List.getElem?_eq_some_iff.mp hj with ⟨hlt, _⟩
  rw [insertNode_tree, List.getElem?_append_left (by rw [List.length_set]; exact hlt)]
  rcases eq_or_ne j p with rfl | hne
  · simp only [if_pos rfl]
    rw [treeGet_of_getElem hj]
    exact List.getElem?_set_self (by omega)
  · rw [if_neg hne, List.getElem?_set_ne (Ne.symm hne)]
    exact hj

theorem insertNode_getElem_beyond (sim : Sim) (p : Nat) (st : CraftState)
    {j : Nat} (hj : sim.tree.length < j) :
    (sim.insertNode p st).1.tree[j]? = none := by
  apply List.getElem?_eq_none
  rw [insertNode_length]
  omega

theorem insertNode_TreeWF (sim : Sim) (p : Nat) (st : CraftState)
    (hp : p < sim.tree.length) (hWF : TreeWF sim.tree) :
    TreeWF (sim.insertNode p st).1.tree := by
  obtain ⟨h1, h2, h3⟩ := hWF
  refine ⟨?_, ?_, ?_⟩ <;> intro j nd' hj
  · intro q hq
    rcases Nat.lt_trichotomy j sim.tree.length with hlt | rfl | hgt
    · obtain hsome := treeGet_getElem hlt
      rw [insertNode_getElem_old sim p st hsome] at hj
      injection hj with hj
      subst hj
      split at hq
      · exact h1 j _ hsome q hq
      · exact h1 j _ hsome q hq
    · rw [insertNode_getElem_new] at hj
      injection hj with hj
      subst hj
      simp only at hq
      injection hq with hq
      omega
    · rw [insertNode_getElem_beyond sim p st hgt] at hj
      cases hj
  · intro hq
    rcases Nat.lt_trichotomy j sim.tree.length with hlt | rfl | hgt
    · obtain hsome := treeGet_getElem hlt
      rw [insertNode_getElem_old sim p st hsome] at hj
      injection hj with hj
      subst hj
      split at hq
      · exact h2 j _ hsome hq
      · exact h2 j _ hsome hq
    · rw [insertNode_getElem_new] at hj
      injection hj with hj
      subst hj
      cases hq
    · rw [insertNode_getElem_beyond sim p st hgt] at hj
      cases hj
  · intro c hc
    rw [insertNode_length]
    rcases Nat.lt_trichotomy j sim.tree.length with hlt | rfl | hgt
    · obtain hsome := treeGet_getElem hlt
      rw [insertNode_getElem_old sim p st hsome] at hj
      injection hj with hj
      subst hj
      split at hc
      · simp only [List.mem_append, List.mem_singleton] at hc
        rcases hc with hc | rfl
        · have := h3 j _ hsome c hc
          omega
        · omega
      · have := h3 j _ hsome c hc
        omega
    · rw [insertNode_getElem_new] at hj
      injection hj with hj
      subst hj
      cases hc
    · rw [insertNode_getElem_beyond sim p st hgt] at hj
      cases hj

end Crafty

namespace Crafty

/-- Composing one "mutate node `idx`, insert a fresh child under it" step
with an already-specified continuation: the combined transformation still
satisfies `ExtendSpec`, and `idx` lies on the final chain. -/
theorem extendSpec_expand_step
    (sim : Sim) (idx : Nat) (f : CraftState → CraftState) (st : CraftState)
    (hf : ∀ s, (f s).visits = s.visits) (hst : st.visits = 0)
    (hidx : idx < sim.tree.length)
    {t' : List SimNode} {e : Nat}
    (hext : ExtendSpec
      (Sim.insertNode { sim with tree := modifyState sim.tree idx f } idx st).1.tree t' e)
    (hchain : OnChain t' e
      (Sim.insertNode { sim with tree := modifyState sim.tree idx f } idx st).2) :
    ExtendSpec sim.tree t' e ∧ OnChain t' e idx := by
  set sim₁ : Sim := { sim with tree := modifyState sim.tree idx f } with hsim₁
  have hlen₁ : sim₁.tree.length = sim.tree.length := length_modifyState _ _ _
  have hn : (Sim.insertNode sim₁ idx st).2 = sim.tree.length := by
    rw [insertNode_snd, hlen₁]
  have hlen₂ : (Sim.insertNode sim₁ idx st).1.tree.length = sim.tree.length + 1 := by
    rw [insertNode_length, hlen₁]
  obtain ⟨hext1, hext2, hext3, hext4, hext5⟩ := hext
  -- the fresh node in the middle tree
  have hnew₂ : (Sim.insertNode sim₁ idx st).1.tree[sim.tree.length]?
      = some { state := st, parent := some idx, children := [] } := by
    rw [← hlen₁]
    exact insertNode_getElem_new sim₁ idx st
  obtain ⟨ndn, hndn, hndnp, hndnv, hndnc, _⟩ := hext4 _ _ hnew₂
  -- idx is on the final chain, through the fresh node
  have hchain_idx : OnChain t' e idx :=
    OnChain.tail (hn ▸ hchain) (by rw [treeGet_of_getElem hndn, hndnp])
  -- indexing of old nodes through the middle tree
  have hmid : ∀ (j : Nat) (nd : SimNode), sim.tree[j]? = some nd →
      (Sim.insertNode sim₁ idx st).1.tree[j]?
        = some (if j = idx
            then { nd with state := f nd.state, children := nd.children ++ [sim.tree.length] }
            else nd) := by
    intro j nd hj
    rcases eq_or_ne j idx with rfl | hne
    · have h₁ : sim₁.tree[j]? = some { nd with state := f nd.state } :=
        getElem_modifyState_self f hj
      have := insertNode_getElem_old sim₁ j st h₁
      rw [this, if_pos rfl, if_pos rfl]
      have hg : treeGet sim₁.tree j = { nd with state := f nd.state } := treeGet_of_getElem h₁
      simp [hlen₁]
    · have h₁ : sim₁.tree[j]? = some nd := by
        rw [hsim₁]
        exact (getElem_modifyState_ne sim.tree f hne.symm).trans hj
      rw [insertNode_getElem_old sim₁ idx st h₁, if_neg hne, if_neg hne]
  refine ⟨⟨?_, hext2, hext3, ?_, ?_⟩, hchain_idx⟩
  · omega
  · -- old nodes of the original tree
    intro j nd hj
    obtain ⟨nd', hj', hp', hv', hc', hne'⟩ := hext4 j _ (hmid j nd hj)
    rcases eq_or_ne j idx with rfl | hne
    · simp only [reduceIte] at hj' hp' hv' hc' hne'
      refine ⟨nd', hj', by simpa using hp', by simpa [hf] using hv', ?_, fun _ => hchain_idx⟩
      intro c hc
      rcases hc' c hc with hin | hge
      · simp only [List.mem_append, List.mem_singleton] at hin
        rcases hin with hin | rfl
        · exact Or.inl hin
        · exact Or.inr (le_refl _)
      · exact Or.inr (by omega)
    · rw [if_neg hne] at hp' hv' hc' hne'
      refine ⟨nd', hj', hp', hv', ?_, ?_⟩
      · intro c hc
        rcases hc' c hc with hin | hge
        · exact Or.inl hin
        · exact Or.inr (by omega)
      · intro hcne
        exact hne' hcne
  · -- new nodes
    intro j nd' hj' hge
    rcases eq_or_ne j sim.tree.length with rfl | hne
    · have h := hndn
      rw [hj'] at h
      injection h with h
      subst h
      refine ⟨?_, ?_, hn ▸ hchain⟩
      · intro c hc
        rcases hndnc c hc with hin | hge'
        · cases hin
        · omega
      · rw [hndnv]
        simp [hst]
    · have hge₂ : (Sim.insertNode sim₁ idx st).1.tree.length ≤ j := by omega
      obtain ⟨hc, hv, hch⟩ := hext5 j nd' hj' hge₂
      exact ⟨fun c hcmem => by have := hc c hcmem; omega, hv, hch⟩

end Crafty

namespace Crafty

/-- `get_mut` on a node's state leaves the arena well-formed: parents,
children and length are untouched. -/
theorem modifyState_TreeWF (t : List SimNode) (i : Nat) (f : CraftState → CraftState)
    (hWF : TreeWF t) : TreeWF (modifyState t i f) := by
  obtain ⟨h1, h2, h3⟩ := hWF
  have key : ∀ (j : Nat) (nd : SimNode), (modifyState t i f)[j]? = some nd →
      ∃ nd₀, t[j]? = some nd₀ ∧ nd.parent = nd₀.parent ∧ nd.children = nd₀.children := by
    intro j nd hj
    rcases eq_or_ne i j with rfl | hne
    · by_cases hlt : i < t.length
      · have hset := getElem_modifyState_self f (treeGet_getElem hlt)
        rw [hset] at hj
        injection hj with hj
        subst hj
        exact ⟨treeGet t i, treeGet_getElem hlt, rfl, rfl⟩
      · unfold modifyState at hj
        rw [List.set_eq_of_length_le (by omega)] at hj
        exact ⟨nd, hj, rfl, rfl⟩
    · rw [getElem_modifyState_ne t f hne] at hj
      exact ⟨nd, hj, rfl, rfl⟩
  refine ⟨?_, ?_, ?_⟩ <;> intro j nd hj
  · obtain ⟨nd₀, h₀, hp, _⟩ := key j nd hj
    intro p hpp
    exact h1 j nd₀ h₀ p (hp ▸ hpp)
  · obtain ⟨nd₀, h₀, hp, _⟩ := key j nd hj
    intro hpp
    exact h2 j nd₀ h₀ (hp ▸ hpp)
  · obtain ⟨nd₀, h₀, _, hc⟩ := key j nd hj
    intro c hcmem
    have := h3 j nd₀ h₀ c (hc ▸ hcmem)
    rw [length_modifyState]
    exact this

theorem CraftState.execute_visits (s : CraftState) (a : Action) :
    (s.execute a).visits = 0 := by
  unfold CraftState.execute
  rw [(setAvailableMoves_fields _ _).2.2.2.2.2.2, execBase_visits]

theorem CraftState.executeStrict_visits (s : CraftState) (a : Action) :
    (s.executeStrict a).visits = 0 := by
  unfold CraftState.executeStrict
  rw [(setAvailableMoves_fields _ _).2.2.2.2.2.2, execBase_visits]


/-- The state mutation `execute_actions` applies to the current node before
inserting the successor: erase the chosen move. -/
def eraseMove (a : Action) : CraftState → CraftState :=
  fun st => { st with availableMoves := st.availableMoves.erase a }

/-- The successor state `execute_actions` inserts for move `a`. -/
def stepState (strict : Bool) (s : CraftState) (a : Action) : CraftState :=
  if strict then CraftState.executeStrict (eraseMove a s) a
  else CraftState.execute (eraseMove a s) a

theorem eraseMove_visits (a : Action) (s : CraftState) : (eraseMove a s).visits = s.visits :=
  rfl

theorem stepState_visits (strict : Bool) (s : CraftState) (a : Action) :
    (stepState strict s a).visits = 0 := by
  unfold stepState
  split
  · exact CraftState.executeStrict_visits _ _
  · exact CraftState.execute_visits _ _

/-- Unfolding one legal step of `execute_actions`: erase the move at the
current node, insert the executed successor, continue from it. -/
theorem executeActionsAux_cons_step {strict : Bool} {sim : Sim} {idx : Nat} {a : Action}
    {rest : List Action}
    (hres : (treeGet sim.tree idx).state.checkResult = none)
    (hmem : a ∈ (treeGet sim.tree idx).state.availableMoves) :
    Sim.executeActionsAux strict sim idx (a :: rest)
      = Sim.executeActionsAux strict
          (Sim.insertNode { sim with tree := modifyState sim.tree idx (eraseMove a) } idx
            (stepState strict (treeGet sim.tree idx).state a)).1
          (Sim.insertNode { sim with tree := modifyState sim.tree idx (eraseMove a) } idx
            (stepState strict (treeGet sim.tree idx).state a)).2
          rest := by
  simp only [Sim.executeActionsAux, hres, hmem, if_true, Sim.insertNode, eraseMove, stepState]
  rfl

/-- Invalid step of `execute_actions`: the simulator is returned unchanged. -/
theorem executeActionsAux_cons_invalid {strict : Bool} {sim : Sim} {idx : Nat} {a : Action}
    {rest : List Action}
    (hres : (treeGet sim.tree idx).state.checkResult = none)
    (hmem : a ∉ (treeGet sim.tree idx).state.availableMoves) :
    Sim.executeActionsAux strict sim idx (a :: rest)
      = (sim, idx, some .InvalidActionFailure) := by
  simp only [Sim.executeActionsAux, hres, hmem, if_false]

/-- Finished step of `execute_actions`: replay stops at a terminal node. -/
theorem executeActionsAux_cons_done {strict : Bool} {sim : Sim} {idx : Nat} {a : Action}
    {rest : List Action} {r : CraftResult}
    (hres : (treeGet sim.tree idx).state.checkResult = some r) :
    Sim.executeActionsAux strict sim idx (a :: rest) = (sim, idx, some r) := by
  simp only [Sim.executeActionsAux, hres]

/-- `execute_actions` (either mode) satisfies the growth spec, and the
start node stays on the parent chain of the returned node. -/
theorem executeActionsAux_spec (strict : Bool) (acts : List Action) :
    ∀ (sim : Sim) (idx : Nat), TreeWF sim.tree → idx < sim.tree.length →
      ExtendSpec sim.tree (Sim.executeActionsAux strict sim idx acts).1.tree
          (Sim.executeActionsAux strict sim idx acts).2.1
        ∧ OnChain (Sim.executeActionsAux strict sim idx acts).1.tree
            (Sim.executeActionsAux strict sim idx acts).2.1 idx := by
  induction acts with
  | nil =>
    intro sim idx hWF hidx
    simp only [Sim.executeActionsAux]
    exact ⟨extendSpec_refl hWF hidx, OnChain.refl idx⟩
  | cons a rest ih =>
    intro sim idx hWF hidx
    cases hres : (treeGet sim.tree idx).state.checkResult with
    | some r =>
      rw [executeActionsAux_cons_done hres]
      exact ⟨extendSpec_refl hWF hidx, OnChain.refl idx⟩
    | none =>
      by_cases hmem : a ∈ (treeGet sim.tree idx).state.availableMoves
      · rw [executeActionsAux_cons_step hres hmem]
        have hWF₁ : TreeWF (modifyState sim.tree idx (eraseMove a)) :=
          modifyState_TreeWF _ _ _ hWF
        have hWF₂ := insertNode_TreeWF
          { sim with tree := modifyState sim.tree idx (eraseMove a) } idx
          (stepState strict (treeGet sim.tree idx).state a)
          (by simpa [length_modifyState] using hidx) hWF₁
        have harg : (Sim.insertNode { sim with tree := modifyState sim.tree idx (eraseMove a) }
              idx (stepState strict (treeGet sim.tree idx).state a)).2
            < (Sim.insertNode { sim with tree := modifyState sim.tree idx (eraseMove a) }
              idx (stepState strict (treeGet sim.tree idx).state a)).1.tree.length := by
          rw [insertNode_snd, insertNode_length]
          omega
        obtain ⟨hext, hchain⟩ := ih _ _ hWF₂ harg
        exact extendSpec_expand_step sim idx _ _
          (eraseMove_visits a) (stepState_visits strict _ a) hidx hext hchain
      · rw [executeActionsAux_cons_invalid hres hmem]
        exact ⟨extendSpec_refl hWF hidx, OnChain.refl idx⟩

/-- The action `expand_and_rollout` draws from the RNG stream. -/
def pickedAction (rngF : Nat → Nat → Nat) (sim : Sim) (i : Nat) : Action :=
  ((treeGet sim.tree i).state.availableMoves).reverse.getD
    (rngF sim.rngSeed sim.rngCounter % ((treeGet sim.tree i).state.availableMoves).length)
    default

/-- The state `expand_and_rollout` expands (strict execution of the picked
action on the erased parent state). -/
def expandedState (rngF : Nat → Nat → Nat) (sim : Sim) (i : Nat) : CraftState :=
  (eraseMove (pickedAction rngF sim i) (treeGet sim.tree i).state).executeStrict
    (pickedAction rngF sim i)

/-- The erase-and-insert performed by `expand_and_rollout` before the
playout, together with the fresh node's index. -/
def expandPair (rngF : Nat → Nat → Nat) (sim : Sim) (i : Nat) : Sim × Nat :=
  Sim.insertNode
    { sim with
        rngCounter := sim.rngCounter + 1
        tree := modifyState sim.tree i (eraseMove (pickedAction rngF sim i)) }
    i (expandedState rngF sim i)

/-- The playout result of `expand_and_rollout`. -/
def rollRes (rngF : Nat → Nat → Nat) (sim : Sim) (i : Nat) : List Action × CraftResult × Nat :=
  rolloutGo rngF sim.rngSeed (2 * (expandedState rngF sim i).context.stepMax + 2)
    (expandedState rngF sim i) [] (sim.rngCounter + 1)


/-- The simulator after the playout: expansion applied, RNG counter at the
playout's final value. -/
def afterRoll (rngF : Nat → Nat → Nat) (sim : Sim) (i : Nat) : Sim :=
  { (expandPair rngF sim i).1 with rngCounter := (rollRes rngF sim i).2.2 }

theorem expandedState_visits (rngF : Nat → Nat → Nat) (sim : Sim) (i : Nat) :
    (expandedState rngF sim i).visits = 0 :=
  CraftState.executeStrict_visits _ _

theorem afterRoll_tree (rngF : Nat → Nat → Nat) (sim : Sim) (i : Nat) :
    (afterRoll rngF sim i).tree = (expandPair rngF sim i).1.tree := rfl

/-- Unfolding `expand_and_rollout` on a non-terminal node in terms of the
named phases. -/
theorem expandAndRollout_eq_none {rngF : Nat → Nat → Nat} {sim : Sim} {i : Nat}
    (hres : (treeGet sim.tree i).state.checkResult = none) :
    Sim.expandAndRollout rngF sim i
      = (match (rollRes rngF sim i).2.1 with
         | .Finished score =>
           if (afterRoll rngF sim i).scoreStorageThreshold ≤ score
               ∧ (treeGet (afterRoll rngF sim i).tree 0).state.maxScore ≤ score then
             ((Sim.executeActionsAux true (afterRoll rngF sim i) (expandPair rngF sim i).2
                 (rollRes rngF sim i).1).1,
              (Sim.executeActionsAux true (afterRoll rngF sim i) (expandPair rngF sim i).2
                 (rollRes rngF sim i).1).2.1,
              (rollRes rngF sim i).2.1)
           else (afterRoll rngF sim i, (expandPair rngF sim i).2, (rollRes rngF sim i).2.1)
         | _ => (afterRoll rngF sim i, (expandPair rngF sim i).2, (rollRes rngF sim i).2.1)) := by
  simp only [Sim.expandAndRollout]
  rw [hres]
  rfl

/-- Terminal node: `expand_and_rollout` is the identity. -/
theorem expandAndRollout_eq_some {rngF : Nat → Nat → Nat} {sim : Sim} {i : Nat}
    {r : CraftResult} (hres : (treeGet sim.tree i).state.checkResult = some r) :
    Sim.expandAndRollout rngF sim i = (sim, i, r) := by
  simp only [Sim.expandAndRollout]
  rw [hres]

/-- `expand_and_rollout` satisfies the growth spec, and the selected node
stays on the parent chain of the node backpropagation starts from. -/
theorem expandAndRollout_spec (rngF : Nat → Nat → Nat) (sim : Sim) (i : Nat)
    (hWF : TreeWF sim.tree) (hi : i < sim.tree.length) :
    ExtendSpec sim.tree (Sim.expandAndRollout rngF sim i).1.tree
        (Sim.expandAndRollout rngF sim i).2.1
      ∧ OnChain (Sim.expandAndRollout rngF sim i).1.tree
          (Sim.expandAndRollout rngF sim i).2.1 i := by
  cases hres : (treeGet sim.tree i).state.checkResult with
  | some r =>
    rw [expandAndRollout_eq_some hres]
    exact ⟨extendSpec_refl hWF hi, OnChain.refl i⟩
  | none =>
    rw [expandAndRollout_eq_none hres]
    have hWF₂ : TreeWF (expandPair rngF sim i).1.tree :=
      insertNode_TreeWF _ i _ (by simpa [length_modifyState] using hi)
        (modifyState_TreeWF _ _ _ hWF)
    have hWF₄ : TreeWF (afterRoll rngF sim i).tree := hWF₂
    have hpr2 : (expandPair rngF sim i).2 = sim.tree.length := by
      simp only [expandPair, insertNode_snd, length_modifyState]
    have hlen1 : (afterRoll rngF sim i).tree.length = sim.tree.length + 1 := by
      rw [afterRoll_tree]
      simp only [expandPair, insertNode_length, length_modifyState]
    have hlt : (expandPair rngF sim i).2 < (afterRoll rngF sim i).tree.length := by omega
    split
    · split_ifs with hcond
      · obtain ⟨hext, hchain⟩ := executeActionsAux_spec true (rollRes rngF sim i).1
          (afterRoll rngF sim i) (expandPair rngF sim i).2 hWF₄ hlt
        exact extendSpec_expand_step sim i (eraseMove (pickedAction rngF sim i))
          (expandedState rngF sim i) (eraseMove_visits _)
          (expandedState_visits rngF sim i) hi hext hchain
      · exact extendSpec_expand_step sim i (eraseMove (pickedAction rngF sim i))
          (expandedState rngF sim i) (eraseMove_visits _)
          (expandedState_visits rngF sim i) hi
          (extendSpec_refl hWF₄ hlt) (OnChain.refl _)
    · exact extendSpec_expand_step sim i (eraseMove (pickedAction rngF sim i))
        (expandedState rngF sim i) (eraseMove_visits _)
        (expandedState_visits rngF sim i) hi
        (extendSpec_refl hWF₄ hlt) (OnChain.refl _)

/-- The per-node statistics update of `backpropagate`. -/
def bumpStats (score : Rat) : CraftState → CraftState :=
  fun st =>
    { st with
        visits := st.visits + 1
        scoreSum := st.scoreSum + score
        maxScore := max st.maxScore score }

/-- One `backpropagate` step applied to the current node. -/
def bumpSim (sim : Sim) (cur : Nat) (score : Rat) : Sim :=
  { sim with tree := modifyState sim.tree cur (bumpStats score) }

theorem bumpSim_tree (sim : Sim) (cur : Nat) (score : Rat) :
    (bumpSim sim cur score).tree = modifyState sim.tree cur (bumpStats score) := rfl

theorem backpropGo_succ (fuel : Nat) (sim : Sim) (cur target : Nat) (score : Rat) :
    backpropGo (fuel + 1) sim cur target score
      = (if cur = target then bumpSim sim cur score
         else match (treeGet (bumpSim sim cur score).tree cur).parent with
           | some p => backpropGo fuel (bumpSim sim cur score) p target score
           | none => bumpSim sim cur score) := by
  simp only [backpropGo]
  rfl

/-- Effect of the single statistics bump on the arena. -/
theorem bumpSim_node_spec (sim : Sim) (cur : Nat) (score : Rat) :
    (bumpSim sim cur score).tree.length = sim.tree.length
    ∧ (∀ j : Nat, (treeGet (bumpSim sim cur score).tree j).parent
        = (treeGet sim.tree j).parent)
    ∧ (∀ j : Nat, (treeGet (bumpSim sim cur score).tree j).children
        = (treeGet sim.tree j).children)
    ∧ (∀ (j : Nat) (nd : SimNode), sim.tree[j]? = some nd →
        ∃ nd', (bumpSim sim cur score).tree[j]? = some nd'
          ∧ nd'.parent = nd.parent ∧ nd'.children = nd.children
          ∧ nd.state.visits ≤ nd'.state.visits
          ∧ (j = cur → nd.state.visits + 1 ≤ nd'.state.visits)) := by
  refine ⟨length_modifyState _ _ _, fun j => modifyState_parent _ _ _ _,
    fun j => modifyState_children _ _ _ _, ?_⟩
  intro j nd hj
  rcases eq_or_ne j cur with rfl | hne
  · refine ⟨{ nd with state := bumpStats score nd.state },
      getElem_modifyState_self _ hj, rfl, rfl, ?_, fun _ => ?_⟩
    · exact le_add_of_nonneg_right zero_le_one
    · exact le_refl _
  · exact ⟨nd, (getElem_modifyState_ne sim.tree (bumpStats score) (Ne.symm hne)).trans hj,
      rfl, rfl, le_refl _, fun h => absurd h hne⟩

/-- `backpropagate` (with target the root) keeps the arena's shape and is
monotone on visit counters, incrementing every node on the walked chain by
at least one. -/
theorem backpropGo_spec (fuel : Nat) :
    ∀ (sim : Sim) (cur : Nat) (score : Rat),
      TreeWF sim.tree → cur < sim.tree.length → cur < fuel →
      (backpropGo fuel sim cur 0 score).tree.length = sim.tree.length
      ∧ (∀ j : Nat, (treeGet (backpropGo fuel sim cur 0 score).tree j).parent
          = (treeGet sim.tree j).parent)
      ∧ (∀ j : Nat, (treeGet (backpropGo fuel sim cur 0 score).tree j).children
          = (treeGet sim.tree j).children)
      ∧ (∀ (j : Nat) (nd : SimNode), sim.tree[j]? = some nd →
          ∃ nd', (backpropGo fuel sim cur 0 score).tree[j]? = some nd'
            ∧ nd'.parent = nd.parent ∧ nd'.children = nd.children
            ∧ nd.state.visits ≤ nd'.state.visits
            ∧ (OnChain sim.tree cur j → nd.state.visits + 1 ≤ nd'.state.visits)) := by
  induction fuel with
  | zero =>
    intro sim cur score _ _ hf
    exact absurd hf (Nat.not_lt_zero cur)
  | succ fuel ih =>
    intro sim cur score hWF hlen hf
    rw [backpropGo_succ]
    obtain ⟨hbl, hbp, hbc, hbn⟩ := bumpSim_node_spec sim cur score
    by_cases hc : cur = 0
    · rw [if_pos hc]
      refine ⟨hbl, hbp, hbc, ?_⟩
      intro j nd hj
      obtain ⟨nd', h1, h2, h3, h4, h5⟩ := hbn j nd hj
      refine ⟨nd', h1, h2, h3, h4, fun hch => h5 ?_⟩
      subst hc
      have := onChain_le hWF hch
      omega
    · rw [if_neg hc]
      rw [show (treeGet (bumpSim sim cur score).tree cur).parent
          = (treeGet sim.tree cur).parent from modifyState_parent _ _ _ _]
      cases hp : (treeGet sim.tree cur).parent with
      | none =>
        refine ⟨hbl, hbp, hbc, ?_⟩
        intro j nd hj
        obtain ⟨nd', h1, h2, h3, h4, h5⟩ := hbn j nd hj
        refine ⟨nd', h1, h2, h3, h4, fun hch => h5 ?_⟩
        rcases onChain_inv hch with rfl | ⟨p, hpp, _⟩
        · rfl
        · rw [hp] at hpp
          cases hpp
      | some p =>
        have hplt : p < cur := parent_some_lt hWF hp
        have hWF₁ : TreeWF (bumpSim sim cur score).tree :=
          modifyState_TreeWF _ _ _ hWF
        obtain ⟨hl', hp', hc', hn'⟩ := ih (bumpSim sim cur score) p score hWF₁
          (by omega) (by omega)
        refine ⟨hl'.trans hbl, fun j => (hp' j).trans (hbp j),
          fun j => (hc' j).trans (hbc j), ?_⟩
        intro j nd hj
        obtain ⟨nd₁, h1, h2, h3, h4, h5⟩ := hbn j nd hj
        obtain ⟨nd₂, g1, g2, g3, g4, g5⟩ := hn' j nd₁ h1
        refine ⟨nd₂, g1, g2.trans h2, g3.trans h3, le_trans h4 g4, ?_⟩
        intro hch
        rcases eq_or_ne j cur with rfl | hne
        · exact le_trans (h5 rfl) g4
        · rcases onChain_inv hch with rfl | ⟨q, hq, hch'⟩
          · exact absurd rfl hne
          · rw [hp] at hq
            injection hq with hq
            subst hq
            have hch₁ : OnChain (bumpSim sim cur score).tree p j :=
              onChain_congr (fun k => hbp k) hch'
            exact le_trans (add_le_add_right h4 1) (g5 hch₁)

/-- The fold underlying `max_by` only ever returns the accumulator or a
list element. -/
theorem foldl_pick_mem {β : Type} [LinearOrder β] (f : Nat → β) :
    ∀ (l : List Nat) (x : Nat),
      l.foldl (fun best c => if f best > f c then best else c) x ∈ x :: l := by
  intro l
  induction l with
  | nil =>
    intro x
    simp
  | cons y ys ih =>
    intro x
    simp only [List.foldl]
    rcases List.mem_cons.mp (ih (if f x > f y then x else y)) with heq | hmem
    · rw [heq]
      split_ifs
      · exact List.mem_cons_self _ _
      · exact List.mem_cons_of_mem _ (List.mem_cons_self _ _)
    · exact List.mem_cons_of_mem _ (List.mem_cons_of_mem _ hmem)

theorem maxByLast_mem {β : Type} [LinearOrder β] (f : Nat → β) {l : List Nat} {x : Nat}
    (h : maxByLast f l = some x) : x ∈ l := by
  cases l with
  | nil => cases h
  | cons y ys =>
    simp only [maxByLast] at h
    injection h with h
    rw [← h]
    exact foldl_pick_mem f ys y

/-- The `select` descent stays inside the arena. -/
theorem selectGo_lt {β : Type} [LinearOrder β] (evalF : CraftState → CraftState → β)
    (sim : Sim) (hWF : TreeWF sim.tree) :
    ∀ (fuel cur : Nat), cur < sim.tree.length → selectGo evalF sim fuel cur < sim.tree.length := by
  intro fuel
  induction fuel with
  | zero =>
    intro cur h
    simpa [selectGo] using h
  | succ fuel ih =>
    intro cur h
    simp only [selectGo]
    split
    · exact h
    · split
      · rename_i c heq
        apply ih
        exact (hWF.2.2 cur (treeGet sim.tree cur) (treeGet_getElem h) c
          (maxByLast_mem _ heq)).2
      · exact h

theorem select_lt {β : Type} [LinearOrder β] (evalF : CraftState → CraftState → β)
    (sim : Sim) (cur : Nat) (hWF : TreeWF sim.tree) (h : cur < sim.tree.length) :
    Sim.select evalF sim cur < sim.tree.length :=
  selectGo_lt evalF sim hWF _ cur h

/-- Well-formedness transfers along any map that preserves each node's
parent and children and the arena's length. -/
theorem treeWF_of_nodeSpec {t t' : List SimNode} (hlen : t'.length = t.length)
    (hspec : ∀ (j : Nat) (nd : SimNode), t[j]? = some nd →
      ∃ nd', t'[j]? = some nd' ∧ nd'.parent = nd.parent ∧ nd'.children = nd.children)
    (hWF : TreeWF t) : TreeWF t' := by
  obtain ⟨h1, h2, h3⟩ := hWF
  have key : ∀ (i : Nat) (nd' : SimNode), t'[i]? = some nd' →
      ∃ nd, t[i]? = some nd ∧ nd'.parent = nd.parent ∧ nd'.children = nd.children := by
    intro i nd' hi
    have hlt : i < t.length := by
      rcases List.getElem?_eq_some_iff.mp hi with ⟨hlt, _⟩
      omega
    obtain ⟨nd'', hi'', hp, hc⟩ := hspec i (treeGet t i) (treeGet_getElem hlt)
    rw [hi] at hi''
    injection hi'' with hi''
    subst hi''
    exact ⟨treeGet t i, treeGet_getElem hlt, hp, hc⟩
  refine ⟨?_, ?_, ?_⟩ <;> intro i nd' hi
  · obtain ⟨nd, hnd, hp, _⟩ := key i nd' hi
    intro p hpp
    exact h1 i nd hnd p (hp ▸ hpp)
  · obtain ⟨nd, hnd, hp, _⟩ := key i nd' hi
    intro hpp
    exact h2 i nd hnd (hp ▸ hpp)
  · obtain ⟨nd, hnd, _, hc⟩ := key i nd' hi
    intro c hcm
    have := h3 i nd hnd c (hc ▸ hcm)
    omega

/-- Nonnegative visit counters survive an `ExtendSpec` growth phase. -/
theorem visitsNonneg_extend {t t' : List SimNode} {e : Nat} (hext : ExtendSpec t t' e)
    (hnn : VisitsNonneg t) : VisitsNonneg t' := by
  intro i nd' hi
  by_cases hlt : i < t.length
  · obtain ⟨nd'', hi'', _, hv, _, _⟩ := hext.2.2.2.1 i (treeGet t i) (treeGet_getElem hlt)
    rw [hi] at hi''
    injection hi'' with hi''
    subst hi''
    rw [hv]
    exact hnn i (treeGet t i) (treeGet_getElem hlt)
  · exact (hext.2.2.2.2 i nd' hi (by omega)).2.1

/-- The loop invariant of `Simulator::search`: a nonempty well-formed
arena, nonnegative visit counters, and every node either already visited
or a never-referenced unexpanded leaf. -/
def SearchInv (sim : Sim) : Prop :=
  0 < sim.tree.length ∧ TreeWF sim.tree ∧ VisitsNonneg sim.tree ∧ VisitOK sim.tree

/-- Backpropagating to the root after a growth phase restores the search
invariant. -/
theorem backprop_inv (sim₀ simB : Sim) (e : Nat) (score : Rat)
    (hpos : 0 < sim₀.tree.length)
    (hnn : VisitsNonneg sim₀.tree) (hok : VisitOK sim₀.tree)
    (hext : ExtendSpec sim₀.tree simB.tree e) :
    SearchInv (Sim.backpropagate simB e 0 score) := by
  have hWFB : TreeWF simB.tree := hext.2.2.1
  have he : e < simB.tree.length := hext.2.1
  have hnnB : VisitsNonneg simB.tree := visitsNonneg_extend hext hnn
  obtain ⟨hl3, hp3, hc3, hn3⟩ :=
    backpropGo_spec simB.tree.length simB e score hWFB he he
  simp only [Sim.backpropagate]
  have hlenB : sim₀.tree.length ≤ simB.tree.length := hext.1
  refine ⟨by omega, ?_, ?_, ?_⟩
  · exact treeWF_of_nodeSpec hl3
      (fun j nd h => by
        obtain ⟨nd', a, b, c, _, _⟩ := hn3 j nd h
        exact ⟨nd', a, b, c⟩)
      hWFB
  · intro i nd' hi
    have hlt : i < simB.tree.length := by
      rcases List.getElem?_eq_some_iff.mp hi with ⟨hlt, _⟩
      omega
    obtain ⟨nd'', g1, _, _, g4, _⟩ := hn3 i (treeGet simB.tree i) (treeGet_getElem hlt)
    rw [hi] at g1
    injection g1 with g1
    subst g1
    exact le_trans (hnnB i (treeGet simB.tree i) (treeGet_getElem hlt)) g4
  · intro i nd' hi
    have hlt : i < simB.tree.length := by
      rcases List.getElem?_eq_some_iff.mp hi with ⟨hlt, _⟩
      omega
    obtain ⟨nd'', g1, g2, g3, g4, g5⟩ := hn3 i (treeGet simB.tree i) (treeGet_getElem hlt)
    rw [hi] at g1
    injection g1 with g1
    subst g1
    by_cases hchn : OnChain simB.tree e i
    · left
      have h0 : 0 ≤ (treeGet simB.tree i).state.visits :=
        hnnB i (treeGet simB.tree i) (treeGet_getElem hlt)
      calc (0 : Rat) < (treeGet simB.tree i).state.visits + 1 :=
              lt_add_of_le_of_pos h0 one_pos
        _ ≤ nd'.state.visits := g5 hchn
    · have hiold : i < sim₀.tree.length := by
        by_contra hge
        exact hchn (hext.2.2.2.2 i (treeGet simB.tree i) (treeGet_getElem hlt)
          (by omega)).2.2
      obtain ⟨ndM, f1, f2, f3, f4, f5⟩ :=
        hext.2.2.2.1 i (treeGet sim₀.tree i) (treeGet_getElem hiold)
      have hndM : ndM = treeGet simB.tree i := by
        rw [treeGet_getElem hlt] at f1
        injection f1 with f1
        exact f1.symm
      subst hndM
      have hceq : (treeGet simB.tree i).children = (treeGet sim₀.tree i).children := by
        by_contra hne
        exact hchn (f5 hne)
      rcases hok i (treeGet sim₀.tree i) (treeGet_getElem hiold) with hv | ⟨hleaf, hunref⟩
      · left
        rw [← f3] at hv
        exact lt_of_lt_of_le hv g4
      · right
        constructor
        · rw [g3, hceq, hleaf]
        · intro j pnd hj hjmem
          have hjlt : j < simB.tree.length := by
            rcases List.getElem?_eq_some_iff.mp hj with ⟨hlt', _⟩
            omega
          obtain ⟨pnd'', q1, _, q3, _, _⟩ :=
            hn3 j (treeGet simB.tree j) (treeGet_getElem hjlt)
          rw [hj] at q1
          injection q1 with q1
          subst q1
          rw [q3] at hjmem
          by_cases hjold : j < sim₀.tree.length
          · obtain ⟨pndM, r1, _, _, r4, _⟩ :=
              hext.2.2.2.1 j (treeGet sim₀.tree j) (treeGet_getElem hjold)
            have hpndM : pndM = treeGet simB.tree j := by
              rw [treeGet_getElem hjlt] at r1
              injection r1 with r1
              exact r1.symm
            subst hpndM
            rcases r4 i hjmem with hin | hge
            · exact hunref j (treeGet sim₀.tree j) (treeGet_getElem hjold) hin
            · omega
          · have := (hext.2.2.2.2 j (treeGet simB.tree j) (treeGet_getElem hjlt)
              (by omega)).1 i hjmem
            omega

/-- Unfolding one search iteration into its phases. -/
theorem searchIteration_eq {β : Type} [LinearOrder β] (evalF : CraftState → CraftState → β)
    (rngF : Nat → Nat → Nat) (sim : Sim) (s : Nat) :
    Sim.searchIteration evalF rngF sim s
      = Sim.backpropagate
          (if Sim.select evalF sim s = (Sim.expandAndRollout rngF sim (Sim.select evalF sim s)).2.1
            then { (Sim.expandAndRollout rngF sim (Sim.select evalF sim s)).1 with
                     deadEndsSelected :=
                       (Sim.expandAndRollout rngF sim (Sim.select evalF sim s)).1.deadEndsSelected
                         + 1 }
            else (Sim.expandAndRollout rngF sim (Sim.select evalF sim s)).1)
          (Sim.expandAndRollout rngF sim (Sim.select evalF sim s)).2.1 s
          (match (Sim.expandAndRollout rngF sim (Sim.select evalF sim s)).2.2 with
            | .Finished sc => sc
            | _ => 0) := rfl

/-- One iteration of `Simulator::search` (from the root) preserves the
search invariant. -/
theorem searchIteration_inv {β : Type} [LinearOrder β] (evalF : CraftState → CraftState → β)
    (rngF : Nat → Nat → Nat) {sim : Sim} (hinv : SearchInv sim) :
    SearchInv (Sim.searchIteration evalF rngF sim 0) := by
  obtain ⟨hpos, hWF, hnn, hok⟩ := hinv
  rw [searchIteration_eq]
  have hsellt : Sim.select evalF sim 0 < sim.tree.length := select_lt evalF sim 0 hWF hpos
  obtain ⟨hext, _⟩ := expandAndRollout_spec rngF sim (Sim.select evalF sim 0) hWF hsellt
  apply backprop_inv sim _ _ _ hpos hnn hok
  split
  · exact hext
  · exact hext

/-- The search loop (from the root) preserves the search invariant. -/
theorem searchLoop_inv {β : Type} [LinearOrder β] (evalF : CraftState → CraftState → β)
    (rngF : Nat → Nat → Nat) :
    ∀ (n : Nat) {sim : Sim}, SearchInv sim → SearchInv (searchLoop evalF rngF 0 n sim) := by
  intro n
  induction n with
  | zero =>
    intro sim hinv
    exact hinv
  | succ n ih =>
    intro sim hinv
    exact ih (searchIteration_inv evalF rngF hinv)

/-- A one-node arena whose root is unvisited, parentless and childless
satisfies the search invariant. -/
theorem searchInv_singleton (sim : Sim) (st : CraftState) (hst : st.visits = 0)
    (htree : sim.tree = [{ state := st, parent := none, children := [] }]) :
    SearchInv sim := by
  have hget : ∀ (i : Nat) (nd : SimNode), sim.tree[i]? = some nd →
      i = 0 ∧ nd = { state := st, parent := none, children := [] } := by
    intro i nd h
    rw [htree] at h
    cases i with
    | zero =>
      rw [List.getElem?_cons_zero] at h
      injection h with h
      exact ⟨rfl, h.symm⟩
    | succ n =>
      rw [List.getElem?_cons_succ, List.getElem?_nil] at h
      cases h
  refine ⟨by rw [htree]; simp, ⟨?_, ?_, ?_⟩, ?_, ?_⟩
  · intro i nd h p hp
    obtain ⟨rfl, rfl⟩ := hget i nd h
    cases hp
  · intro i nd h _
    exact (hget i nd h).1
  · intro i nd h c hc
    obtain ⟨rfl, rfl⟩ := hget i nd h
    exact absurd hc (List.not_mem_nil c)
  · intro i nd h
    obtain ⟨rfl, rfl⟩ := hget i nd h
    show (0 : Rat) ≤ st.visits
    rw [hst]
  · intro i nd h
    obtain ⟨rfl, rfl⟩ := hget i nd h
    right
    refine ⟨rfl, ?_⟩
    intro j pnd hj
    obtain ⟨rfl, rfl⟩ := hget j pnd hj
    exact List.not_mem_nil 0

/-- The freshly rooted simulator satisfies the search invariant. -/
theorem fromState_inv (st : CraftState) (hst : st.visits = 0)
    (options : SearchOptions) (entropy : Nat) :
    SearchInv (Simulator.fromState st options entropy) :=
  searchInv_singleton _ st hst rfl

theorem new_visits (context : CraftContext) : (CraftState.new context).visits = 0 := by
  unfold CraftState.new
  rw [(setAvailableMoves_fields _ _).2.2.2.2.2.2]
  rfl

theorem fromContext_inv (context : CraftContext) (options : SearchOptions) (entropy : Nat) :
    SearchInv (Simulator.fromContext context options entropy) :=
  fromState_inv _ (new_visits context) options entropy

/-- C7: after any number of completed iterations of `Simulator::search`
(rooted by `from_context`, start index 0, as `search` and `search_oneshot`
run it), every node referenced in any node's child list has a strictly
positive visit counter — every inserted node receives at least one
backpropagated visit before the next selection phase begins.  `select`
computes `eval` scores exactly for the entries of child lists, and `eval`
divides `score_sum` by `visits` and feeds `visits` to `ln`, so this is what
keeps the UCT score finite and the `partial_cmp(..).unwrap()` comparison
panic-free.  Stated for every eval function (`evalF`, over any linear
score order) and every RNG stream (`rngF`), so it covers the source's
floating-point `eval` and seeded RNG. -/
theorem search_child_visits_pos {β : Type} [LinearOrder β]
    (evalF : CraftState → CraftState → β) (rngF : Nat → Nat → Nat)
    (context : CraftContext) (options : SearchOptions) (entropy : Nat) (n : Nat)
    (i : Nat) (nd : SimNode)
    (hnd : (searchLoop evalF rngF 0 n
        (Simulator.fromContext context options entropy)).tree[i]? = some nd) :
    ∀ c ∈ nd.children,
      0 < (treeGet (searchLoop evalF rngF 0 n
          (Simulator.fromContext context options entropy)).tree c).state.visits := by
  obtain ⟨hpos, hWF, hnn, hok⟩ :=
    searchLoop_inv evalF rngF n (fromContext_inv context options entropy)
  intro c hc
  have hclt := (hWF.2.2 i nd hnd c hc).2
  have hcnode := treeGet_getElem hclt
  rcases hok c _ hcnode with hv | ⟨_, hunref⟩
  · exact hv
  · exact absurd hc (hunref i nd hnd)

theorem search_child_visits_pos_witness :
    ((searchLoop (fun _ _ => (0 : Rat)) (fun _ _ => 0) 0 0
        (Simulator.fromContext scenarioContext (SearchOptions.defaultOpts 0) 0)).tree[0]?
      = some { state := CraftState.new scenarioContext, parent := none, children := [] })
    ∧ ∀ c ∈ ({ state := CraftState.new scenarioContext, parent := none, children := [] } : SimNode).children,
        0 < (treeGet (searchLoop (fun _ _ => (0 : Rat)) (fun _ _ => 0) 0 0
            (Simulator.fromContext scenarioContext
              (SearchOptions.defaultOpts 0) 0)).tree c).state.visits :=
  ⟨rfl, search_child_visits_pos (fun _ _ => (0 : Rat)) (fun _ _ => 0) scenarioContext
    (SearchOptions.defaultOpts 0) 0 0 0 _ rfl⟩

/-- C9: with `rng_seed = Some s` in the search options, `search_oneshot`
is deterministic — two runs on the same context, history and options
return identical action lists and identical final states, whatever
entropy the clock would have injected: the entropy argument is only read
by `from_state` as the fallback seed when `rng_seed` is `None`, and all
randomness in the search is drawn from the seeded RNG stream. -/
theorem searchOneshot_seed_deterministic {β : Type} [LinearOrder β]
    (evalF : CraftState → CraftState → β) (rngF : Nat → Nat → Nat)
    (context : CraftContext) (actionHistory : List Action)
    (options : SearchOptions) (s : Nat) (h : options.rngSeed = some s)
    (e₁ e₂ : Nat) :
    searchOneshot evalF rngF context actionHistory options e₁
      = searchOneshot evalF rngF context actionHistory options e₂ := by
  unfold searchOneshot
  have hctx : Simulator.fromContext context options e₁
      = Simulator.fromContext context options e₂ := by
    unfold Simulator.fromContext Simulator.fromState
    rw [h]
  rw [hctx]

theorem searchOneshot_seed_deterministic_witness :
    (SearchOptions.defaultOpts 5).rngSeed = some 5
    ∧ searchOneshot (fun _ _ => (0 : Rat)) (fun _ _ => 0) scenarioContext []
        (SearchOptions.defaultOpts 5) 3
      = searchOneshot (fun _ _ => (0 : Rat)) (fun _ _ => 0) scenarioContext []
        (SearchOptions.defaultOpts 5) 7 :=
  ⟨rfl, searchOneshot_seed_deterministic (fun _ _ => (0 : Rat)) (fun _ _ => 0)
    scenarioContext [] (SearchOptions.defaultOpts 5) 5 rfl 3 7⟩
